import Mathlib

/-!
Verification of the streaming tick pipeline and rolling analytics/alerting
engine of the quantitative-analytics-dashboard repository.

The Python sources under `backend/` are shallowly embedded here:
float arithmetic is modelled by exact rational arithmetic (`ℚ`), pandas
`NaN` propagation by `Option ℚ` (all comparisons against `none` are false,
matching IEEE NaN comparison semantics), fallible routines return `Option`,
and routines that delegate their numerical core to an external library
(statsmodels OLS/adfuller, sklearn robust regressors) take that core as an
explicit oracle argument.
-/

namespace QuantDash

/-! ## Rational square root stand-in

The sources take floating-point square roots (`pandas.rolling.std`,
`numpy.sqrt`).  `Rat.sqrt` is used as the rational stand-in: it is exact
whenever the radicand is the square of a rational (which holds in every
concrete evaluation performed in this file) and floor-approximates
otherwise.  Every theorem below uses only its zero/sign behaviour, never
its rounding. -/

/-- Mean of a list of rationals (`Series.mean`); `0` on the empty list,
matching the junk-value convention `0/0 = 0` of `ℚ` division. -/
def listMean (l : List ℚ) : ℚ := l.sum / l.length

/-- Unbiased sample variance (`Series.var`, pandas default `ddof = 1`).
For a single observation the denominator is `0`, and `ℚ` division by zero
returns `0`; the z-score definition below maps variance `0` to `none`,
which is exactly where pandas produces `NaN`. -/
def sampleVar (l : List ℚ) : ℚ :=
  (l.map (fun x => (x - listMean l) ^ 2)).sum / ((l.length : ℚ) - 1)

/-- Sample standard deviation (`Series.std`): square root of `sampleVar`. -/
def sampleStd (l : List ℚ) : ℚ := Rat.sqrt (sampleVar l)

/-! ## Analytics Engine: Kalman hedge ratio (`analytics.py`,
`AnalyticsEngine.compute_kalman_hedge_ratio`) -/

/-- Inner join of two index-aligned series: pandas
`pd.DataFrame({'p1': .., 'p2': ..}).dropna()` keeps exactly the rows where
both values are present. -/
def alignPairs (rows : List (Option ℚ × Option ℚ)) : List (ℚ × ℚ) :=
  rows.filterMap fun r =>
    match r with
    | (some a, some b) => some (a, b)
    | _ => none

/-- One iteration of the Kalman loop body of
`compute_kalman_hedge_ratio`: state is `(beta, P)`, the observation is
`(y, x) = (p1_i, p2_i)`. -/
def kalmanStep (processVariance measurementVariance : ℚ)
    (state : ℚ × ℚ) (obs : ℚ × ℚ) : ℚ × ℚ :=
  let P_pred := state.2 + processVariance
  let residual := obs.1 - state.1 * obs.2
  let S := obs.2 * P_pred * obs.2 + measurementVariance
  let K := P_pred * obs.2 / S
  (state.1 + K * residual, (1 - K * obs.2) * P_pred)

/-- The `for i in range(1, n)` loop of `compute_kalman_hedge_ratio`:
starting from `state`, emit the updated beta after each remaining
observation. -/
def kalmanBetas (q m : ℚ) : ℚ × ℚ → List (ℚ × ℚ) → List ℚ
  | _, [] => []
  | state, obs :: rest =>
    let state' := kalmanStep q m state obs
    state'.1 :: kalmanBetas q m state' rest

/-- `AnalyticsEngine.compute_kalman_hedge_ratio`.  The two input series are
given as their index-aligned rows (`none` = missing value).  Returns the
pair `(hedge_ratios, spreads)`; both are empty when either series has
fewer than 2 entries or fewer than 2 aligned rows remain. -/
def compute_kalman_hedge_ratio (rows : List (Option ℚ × Option ℚ))
    (initial_beta : ℚ := 1) (process_variance : ℚ := 1 / 100)
    (measurement_variance : ℚ := 1 / 10) : List ℚ × List ℚ :=
  if rows.length < 2 then ([], []) else
  let aligned := alignPairs rows
  if aligned.length < 2 then ([], []) else
  let betas := initial_beta ::
    kalmanBetas process_variance measurement_variance
      (initial_beta, 1) aligned.tail
  let spreads := List.zipWith (fun (yx : ℚ × ℚ) b => yx.1 - b * yx.2)
    aligned betas
  (betas, spreads)

/-- Modelled from the spec (§4.3, C1): the reference Kalman recursion
`P_pred = P + q; r = y_i - beta*x_i; S = x_i^2 * P_pred + m;
K = P_pred*x_i/S; beta' = beta + K*r; P' = (1-K*x_i)*P_pred`, unrolled as
a function of the step index over the aligned observations.
`kalmanSpecState obs q m i` is the `(beta, P)` state after processing
observations `1..i`. -/
def kalmanSpecState (obs : List (ℚ × ℚ)) (q m b0 P0 : ℚ) : ℕ → ℚ × ℚ
  | 0 => (b0, P0)
  | i + 1 =>
    let prev := kalmanSpecState obs q m b0 P0 i
    let yx := obs.getD (i + 1) (0, 0)
    let P_pred := prev.2 + q
    let r := yx.1 - prev.1 * yx.2
    let S := yx.2 ^ 2 * P_pred + m
    let K := P_pred * yx.2 / S
    (prev.1 + K * r, (1 - K * yx.2) * P_pred)

/-! ## Analytics Engine: rolling z-score (`analytics.py`,
`AnalyticsEngine.compute_zscore`) -/

/-- The trailing window of length `w` ending at index `i` (inclusive), as
pandas `rolling(window=w)` sees it once `i + 1 ≥ w`. -/
def rollingWindow (xs : List ℚ) (w i : ℕ) : List ℚ :=
  (xs.take (i + 1)).drop (i + 1 - w)

/-- The z-score entry at index `i`:
`(x_i - rolling_mean) / rolling_std`, `none` while the window is not yet
full (pandas emits `NaN` there) and `none` when the rolling standard
deviation is zero (`0/0 = NaN`; the current value always lies in its own
window, so zero variance forces a zero numerator as well). -/
def zscoreAt (xs : List ℚ) (w i : ℕ) : Option ℚ :=
  if i + 1 < w then none
  else
    let win := rollingWindow xs w i
    let v := sampleVar win
    if v = 0 then none
    else some ((xs.getD i 0 - listMean win) / Rat.sqrt v)

/-- `AnalyticsEngine.compute_zscore`: empty output for a series shorter
than the window, otherwise one (possibly-`NaN`) entry per input index. -/
def compute_zscore (xs : List ℚ) (window : ℕ) : List (Option ℚ) :=
  if xs.length < window then []
  else (List.range xs.length).map (zscoreAt xs window)

/-! ## Analytics Engine: gated statistics (`analytics.py`) -/

/-- Percentage change `Series.pct_change().dropna()`:
`(x_i - x_{i-1}) / x_{i-1}` for `i ≥ 1`. -/
def pctChange : List ℚ → List ℚ
  | [] => []
  | [_] => []
  | a :: b :: rest => (b - a) / a :: pctChange (b :: rest)

/-- Result record of `compute_price_stats`. -/
structure PriceStats where
  mean : ℚ
  std : ℚ
  min : ℚ
  max : ℚ
  current : ℚ
  return_mean : ℚ
  return_std : ℚ
  volatility : ℚ
  skewness : ℚ
  kurtosis : ℚ
  deriving Repr, DecidableEq

/-- Adjusted Fisher-Pearson sample skewness, as `Series.skew` computes it:
`n^2/((n-1)(n-2)) * m3 / s^3` with `s` the sample standard deviation. -/
def sampleSkew (l : List ℚ) : ℚ :=
  let n : ℚ := l.length
  let m := listMean l
  let s := sampleStd l
  n ^ 2 / ((n - 1) * (n - 2)) *
    ((l.map (fun x => (x - m) ^ 3)).sum / n) / s ^ 3

/-- Sample excess kurtosis, as `Series.kurtosis` computes it (the `G2`
estimator). -/
def sampleKurt (l : List ℚ) : ℚ :=
  let n : ℚ := l.length
  let m := listMean l
  let v := sampleVar l
  (n * (n + 1) / ((n - 1) * (n - 2) * (n - 3))) *
      ((l.map (fun x => (x - m) ^ 4)).sum / v ^ 2) -
    3 * (n - 1) ^ 2 / ((n - 2) * (n - 3))

/-- `AnalyticsEngine.compute_price_stats`: `none` (the empty dict) for
fewer than 2 observations, otherwise the statistics record.  The
annualisation factor is `sqrt (252 * 24 * 60)` via the rational
square-root stand-in. -/
def compute_price_stats (prices : List ℚ) : Option PriceStats :=
  if prices.length < 2 then none
  else
    let returns := pctChange prices
    some
      { mean := listMean prices
        std := sampleStd prices
        min := prices.foldr Min.min (prices.headD 0)
        max := prices.foldr Max.max (prices.headD 0)
        current := prices.getLastD 0
        return_mean := if returns.length > 0 then listMean returns else 0
        return_std := if returns.length > 0 then sampleStd returns else 0
        volatility :=
          if returns.length > 0 then
            sampleStd returns * Rat.sqrt (252 * 24 * 60)
          else 0
        skewness := if returns.length > 0 then sampleSkew returns else 0
        kurtosis := if returns.length > 0 then sampleKurt returns else 0 }

/-- Raw result of the delegated `statsmodels.adfuller` call: test
statistic, p-value, used lag, number of observations, critical values. -/
structure AdfRaw where
  statistic : ℚ
  pvalue : ℚ
  usedLag : ℕ
  nObs : ℕ
  criticalValues : List (String × ℚ)
  deriving Repr, DecidableEq

/-- Result record of `compute_adf_test`. -/
structure AdfResult where
  adf_statistic : ℚ
  pvalue : ℚ
  critical_values : List (String × ℚ)
  is_stationary : Bool
  used_lag : ℕ
  n_obs : ℕ
  deriving Repr, DecidableEq

/-- Values of a pandas series with possible missing entries. -/
def dropNa (xs : List (Option ℚ)) : List ℚ := xs.filterMap id

/-- `AnalyticsEngine.compute_adf_test`.  The numerical core
(`statsmodels.tsa.stattools.adfuller`) is delegated: it is passed in as an
oracle that may fail (`Except`), and a failure is caught and converted to
the empty result, mirroring the `try/except` in the source.  Fewer than 10
observations short-circuit to the empty result before the oracle runs. -/
def compute_adf_test (adfuller : List ℚ → Except String AdfRaw)
    (series : List (Option ℚ)) : Option AdfResult :=
  if series.length < 10 then none
  else
    match adfuller (dropNa series) with
    | .error _ => none
    | .ok r =>
      some
        { adf_statistic := r.statistic
          pvalue := r.pvalue
          critical_values := r.criticalValues
          is_stationary := decide (r.pvalue < 1 / 20)
          used_lag := r.usedLag
          n_obs := r.nObs }

/-- Result record of `compute_ols_regression`. -/
structure OlsResult where
  alpha : ℚ
  beta : ℚ
  r_squared : ℚ
  pvalue : ℚ
  std_err : ℚ
  residuals : List ℚ
  deriving Repr, DecidableEq

/-- `AnalyticsEngine.compute_ols_regression`.  The linear-algebra solve is
delegated to `statsmodels.OLS`, modelled as an oracle over the aligned
rows; oracle failure is caught and converted to the empty result.  The
gates are the source's: series shorter than 2, mismatched lengths, or
fewer than 2 aligned rows all yield the empty result. -/
def compute_ols_regression (ols : List (ℚ × ℚ) → Except String OlsResult)
    (y x : List (Option ℚ)) : Option OlsResult :=
  if y.length < 2 ∨ x.length < 2 ∨ y.length ≠ x.length then none
  else
    let aligned := alignPairs (y.zip x)
    if aligned.length < 2 then none
    else
      match ols aligned with
      | .error _ => none
      | .ok r => some r

/-- Result record of `compute_robust_regression`. -/
structure RobustResult where
  alpha : ℚ
  beta : ℚ
  method : String
  deriving Repr, DecidableEq

/-- `AnalyticsEngine.compute_robust_regression`.  The numerical core
(sklearn `HuberRegressor` / `TheilSenRegressor`) is an oracle taking the
method name and the aligned rows; an unknown method raises inside the
`try` block in the source and is therefore caught, yielding the empty
result, exactly like an oracle failure. -/
def compute_robust_regression
    (fit : String → List (ℚ × ℚ) → Except String (ℚ × ℚ))
    (y x : List (Option ℚ)) (method : String := "huber") :
    Option RobustResult :=
  if y.length < 2 ∨ x.length < 2 ∨ y.length ≠ x.length then none
  else
    let aligned := alignPairs (y.zip x)
    if aligned.length < 2 then none
    else if method = "huber" ∨ method = "theilsen" then
      match fit method aligned with
      | .error _ => none
      | .ok r => some { alpha := r.1, beta := r.2, method := method }
    else none

/-! ## Resampler (`sampler.py`, `DataSampler.resample_ticks`) -/

/-- A trade event (`ticks` DataFrame row): timestamp in milliseconds since
epoch, symbol, price, size. -/
structure Tick where
  timestamp : ℕ
  symbol : String
  price : ℚ
  size : ℚ
  deriving Repr, DecidableEq

/-- An OHLC bar (output row of `resample_ticks`). -/
structure Bar where
  timestamp : ℕ
  symbol : String
  open_ : ℚ
  high : ℚ
  low : ℚ
  close : ℚ
  volume : ℚ
  trade_count : ℕ
  deriving Repr, DecidableEq

/-- The configured timeframes (`config.TIMEFRAMES`): name ↦ interval
length in seconds. -/
def TIMEFRAMES : List (String × ℕ) := [("1s", 1), ("1m", 60), ("5m", 300)]

/-- First element of the list in original order among those of minimal
timestamp — pandas `first` aggregation over a time bucket (time order,
ties broken by position). -/
def earliestTick (t : Tick) (ts : List Tick) : Tick :=
  ts.foldl (fun acc u => if u.timestamp < acc.timestamp then u else acc) t

/-- Last element in original order among those of maximal timestamp —
pandas `last` aggregation over a time bucket. -/
def latestTick (t : Tick) (ts : List Tick) : Tick :=
  ts.foldl (fun acc u => if acc.timestamp ≤ u.timestamp then u else acc) t

/-- Build the bar for one non-empty bucket: `open = first`, `high = max`,
`low = min`, `close = last`, `volume = Σ size`,
`trade_count = #ticks`; the bar timestamp is the interval start in
milliseconds. -/
def barOfBucket (sym : String) (intervalStartMs : ℕ) (t : Tick)
    (ts : List Tick) : Bar :=
  { timestamp := intervalStartMs
    symbol := sym
    open_ := (earliestTick t ts).price
    high := (ts.map Tick.price).foldl Max.max t.price
    low := (ts.map Tick.price).foldl Min.min t.price
    close := (latestTick t ts).price
    volume := (ts.map Tick.size).foldl (· + ·) t.size
    trade_count := ts.length + 1 }

/-- `DataSampler.resample_ticks`.  An unknown timeframe raises
`ValueError` in the source, modelled as `none`.  Ticks are grouped by
symbol; within a group they are bucketed by
`floor(timestamp / interval_ms)` (pandas `resample` with its epoch-aligned
day origin), and each non-empty bucket produces one bar; empty buckets are
dropped (`dropna`). -/
def resample_ticks (ticks : List Tick) (timeframe : String) :
    Option (List Bar) :=
  match TIMEFRAMES.lookup timeframe with
  | none => none
  | some intervalSeconds =>
    let tfMs := intervalSeconds * 1000
    let syms := (ticks.map Tick.symbol).dedup
    some <| syms.flatMap fun s =>
      let group := ticks.filter fun t => t.symbol = s
      let keys := (group.map fun t => t.timestamp / tfMs).dedup
      keys.filterMap fun k =>
        match group.filter (fun t => t.timestamp / tfMs = k) with
        | [] => none
        | t :: ts => some (barOfBucket s (k * tfMs) t ts)

/-! ## Storage (`storage.py`, `DataStorage.get_ticks` / `get_bars`)

The SQLite tables are modelled as lists of rows in insertion order.  The
queries `ORDER BY timestamp DESC` then optionally `LIMIT n`, and the
Python wrapper re-sorts the frame ascending by timestamp.  The Python
truthiness tests `if start_time:` / `if end_time:` / `if limit:` are kept:
a supplied value of `0` behaves like an absent one. -/

/-- Descending-timestamp comparator used by `ORDER BY timestamp DESC`. -/
def descByTs {α : Type} (ts : α → ℕ) (a b : α) : Prop := ts b ≤ ts a

/-- Ascending-timestamp comparator used by `df.sort_values('timestamp')`. -/
def ascByTs {α : Type} (ts : α → ℕ) (a b : α) : Prop := ts a ≤ ts b

instance {α : Type} (ts : α → ℕ) : DecidableRel (descByTs ts) :=
  fun a b => inferInstanceAs (Decidable (ts b ≤ ts a))

instance {α : Type} (ts : α → ℕ) : DecidableRel (ascByTs ts) :=
  fun a b => inferInstanceAs (Decidable (ts a ≤ ts b))

instance {α : Type} (ts : α → ℕ) : IsTotal α (descByTs ts) :=
  ⟨fun a b => Nat.le_total (ts b) (ts a)⟩

instance {α : Type} (ts : α → ℕ) : IsTrans α (descByTs ts) :=
  ⟨fun _ _ _ h h2 => Nat.le_trans h2 h⟩

instance {α : Type} (ts : α → ℕ) : IsTotal α (ascByTs ts) :=
  ⟨fun a b => Nat.le_total (ts a) (ts b)⟩

instance {α : Type} (ts : α → ℕ) : IsTrans α (ascByTs ts) :=
  ⟨fun _ _ _ h h2 => Nat.le_trans h h2⟩

/-- The `WHERE` clause of `get_ticks` / `get_bars`: the row predicate
(symbol match) and the time-range bounds, where the Python truthiness of
`if start_time:` / `if end_time:` makes a bound of `0` behave like an
absent one. -/
def rowInRange {α : Type} (ts : α → ℕ) (rowMatch : α → Bool)
    (startTime endTime : Option ℕ) (r : α) : Bool :=
  rowMatch r &&
    (match startTime with
      | some s => if s ≠ 0 then decide (s ≤ ts r) else true
      | none => true) &&
    (match endTime with
      | some e => if e ≠ 0 then decide (ts r ≤ e) else true
      | none => true)

/-- Shared query skeleton of `get_ticks` and `get_bars`: filter by the
`WHERE` clause, order by timestamp descending, apply the truthy `LIMIT`
(`if limit:` — a limit of `0` applies no `LIMIT` clause), then re-sort
the returned frame ascending. -/
def queryRows {α : Type} (ts : α → ℕ) (rowMatch : α → Bool)
    (startTime endTime : Option ℕ) (lim : Option ℕ) (table : List α) :
    List α :=
  let rows := table.filter (rowInRange ts rowMatch startTime endTime)
  let sortedDesc := rows.insertionSort (descByTs ts)
  let limited :=
    match lim with
    | some n => if n ≠ 0 then sortedDesc.take n else sortedDesc
    | none => sortedDesc
  limited.insertionSort (ascByTs ts)

/-- `DataStorage.get_ticks`. -/
def get_ticks (table : List Tick) (symbol : String)
    (start_time end_time lim : Option ℕ) : List Tick :=
  queryRows Tick.timestamp (fun t => t.symbol == symbol)
    start_time end_time lim table

/-- `DataStorage.get_bars`; an invalid timeframe raises (`none`), and the
bars of each timeframe live in their own table. -/
def get_bars (tables : String → List Bar) (symbol timeframe : String)
    (start_time end_time lim : Option ℕ) : Option (List Bar) :=
  match TIMEFRAMES.lookup timeframe with
  | none => none
  | some _ =>
    some (queryRows Bar.timestamp (fun b => b.symbol == symbol)
      start_time end_time lim (tables timeframe))

/-! ## Backtest Simulator (`backtest.py`, `MeanReversionBacktest.run`)

The loop `for i in range(window, len(spread))` reads, at each index `i`,
the z-score `zscore.iloc[i]` (possibly `NaN`, modelled as `none`), the
spread price `spread.iloc[i]` and the index label `i`; positions are the
source's integers `1` (long), `-1` (short), `0` (flat). -/

/-- A trade record.  `exitInfo` is `none` while the trade is open (the
source's dict gains the `exit_time/exit_price/exit_zscore/pnl` keys only
on close); the exit z-score is optional because a forced close records
`zscore.iloc[-1]`, which can be `NaN`. -/
structure Trade where
  type : String
  entry_time : ℕ
  entry_price : ℚ
  entry_zscore : ℚ
  exitInfo : Option (ℕ × ℚ × Option ℚ × ℚ)
  deriving Repr, DecidableEq

/-- Mutable loop state of `MeanReversionBacktest.run`. -/
structure BtState where
  position : ℤ
  trades : List Trade
  equity : ℚ
  deriving Repr, DecidableEq

/-- One loop item: `(index label, z-score, spread price)`. -/
def BtItem : Type := ℕ × Option ℚ × ℚ

/-- Comparison of a possibly-`NaN` value with a threshold: every
comparison against `NaN` is false. -/
def nanLt (z : Option ℚ) (c : ℚ) : Bool :=
  match z with
  | none => false
  | some q => decide (q < c)

/-- `z > c` with `NaN`-is-false semantics. -/
def nanGt (z : Option ℚ) (c : ℚ) : Bool :=
  match z with
  | none => false
  | some q => decide (c < q)

/-- `z >= c` with `NaN`-is-false semantics. -/
def nanGe (z : Option ℚ) (c : ℚ) : Bool :=
  match z with
  | none => false
  | some q => decide (c ≤ q)

/-- `z <= c` with `NaN`-is-false semantics. -/
def nanLe (z : Option ℚ) (c : ℚ) : Bool :=
  match z with
  | none => false
  | some q => decide (q ≤ c)

/-- Close the most recent trade (`trades[-1].update(...)`) at the given
exit data, returning the updated trade list and the realised pnl.  The
position pnl is `(exit - entry) * 100` for a long, reversed for a short
(fixed unit size 100). -/
def closeLast (trades : List Trade) (position : ℤ) (exitTime : ℕ)
    (exitPrice : ℚ) (exitZ : Option ℚ) : List Trade × ℚ :=
  match trades.getLast? with
  | none => (trades, 0)
  | some t =>
    let pnl :=
      if position = 1 then (exitPrice - t.entry_price) * 100
      else (t.entry_price - exitPrice) * 100
    (trades.dropLast ++
      [{ t with exitInfo := some (exitTime, exitPrice, exitZ, pnl) }], pnl)

/-- The body of the backtest loop at one item. -/
def btStep (entry exit_ : ℚ) (st : BtState) (it : BtItem) : BtState :=
  let (i, z, price) := it
  if st.position = 0 then
    if nanLt z (-entry) then
      { st with
        position := 1
        trades := st.trades ++
          [{ type := "LONG", entry_time := i, entry_price := price,
             entry_zscore := z.getD 0, exitInfo := none }] }
    else if nanGt z entry then
      { st with
        position := -1
        trades := st.trades ++
          [{ type := "SHORT", entry_time := i, entry_price := price,
             entry_zscore := z.getD 0, exitInfo := none }] }
    else st
  else
    if (st.position = 1 && nanGe z exit_) ||
        (st.position = -1 && nanLe z (-exit_)) then
      let (trades', pnl) := closeLast st.trades st.position i price z
      { position := 0, trades := trades', equity := st.equity + pnl }
    else st

/-- The backtest loop: runs the step over all items, appending the
post-step equity to the equity curve after each iteration. -/
def btLoop (entry exit_ : ℚ) (st : BtState) :
    List BtItem → BtState × List ℚ
  | [] => (st, [])
  | it :: rest =>
    let st' := btStep entry exit_ st it
    let (fin, curve) := btLoop entry exit_ st' rest
    (fin, st'.equity :: curve)

/-- Result record of `MeanReversionBacktest.run` (the fields the claims
are about; the remaining statistics are derived from these). -/
structure BtResult where
  total_trades : ℕ
  trades : List Trade
  equity_curve : List ℚ
  final_equity : ℚ
  deriving Repr, DecidableEq

/-- `MeanReversionBacktest.run`.  Returns `none` (the empty dict) when the
spread is shorter than the window.  After the loop, an open position is
force-closed at the last spread price and last z-score, overwriting the
last equity-curve entry.  `total_trades` counts completed trades
(`'pnl' in t`). -/
def backtest_run (entry_threshold exit_threshold : ℚ) (spread : List ℚ)
    (window : ℕ) : Option BtResult :=
  if spread.length < window then none
  else
    let zs := compute_zscore spread window
    let items : List BtItem :=
      (List.range spread.length).drop window |>.map fun i =>
        (i, zs.getD i none, spread.getD i 0)
    let init : BtState := { position := 0, trades := [], equity := 100000 }
    let (fin, curve) := btLoop entry_threshold exit_threshold init items
    let (finT, finE, finC) :=
      if fin.position ≠ 0 ∧ fin.trades ≠ [] then
        let (trades', pnl) := closeLast fin.trades fin.position
          (spread.length - 1) (spread.getLastD 0) (zs.getLastD none)
        (trades', fin.equity + pnl, curve.dropLast ++ [fin.equity + pnl])
      else (fin.trades, fin.equity, curve)
    some
      { total_trades := (finT.filter fun t => t.exitInfo.isSome).length
        trades := finT
        equity_curve := finC
        final_equity := finE }

/-- Realised pnl of closing a position at spread price `p`:
`(exit - entry) * 100` for a long, reversed for a short. -/
def exitPnl (pos : ℤ) (T : Trade) (p : ℚ) : ℚ :=
  if pos = 1 then (p - T.entry_price) * 100 else (T.entry_price - p) * 100

/-- The most recent trade updated with its exit data. -/
def closeTradeAt (T : Trade) (i : ℕ) (p : ℚ) (z : Option ℚ) (pnl : ℚ) :
    Trade :=
  { T with exitInfo := some (i, p, z, pnl) }

/-- Modelled from the spec (§8, C3): the scenario z-score path shape
`[0,...,-3ish,...,0,...,+3ish,...,0]` — the z-scores read by the backtest
loop decompose into five consecutive phases: leading zeros; a strictly
negative stretch dipping below `-3`; a non-empty run of zeros; a strictly
positive stretch rising above `+3`; and a final non-empty run of zeros. -/
def ScenarioShape (zs : List (Option ℚ)) : Prop :=
  ∃ a b c d e : List (Option ℚ),
    zs = a ++ b ++ c ++ d ++ e ∧
    (∀ z ∈ a, z = some 0) ∧
    (∀ z ∈ b, ∃ q : ℚ, z = some q ∧ q < 0) ∧
    (∃ z ∈ b, ∃ q : ℚ, z = some q ∧ q < -3) ∧
    c ≠ [] ∧ (∀ z ∈ c, z = some 0) ∧
    (∀ z ∈ d, ∃ q : ℚ, z = some q ∧ 0 < q) ∧
    (∃ z ∈ d, ∃ q : ℚ, z = some q ∧ 3 < q) ∧
    e ≠ [] ∧ (∀ z ∈ e, z = some 0)

/-! ## Alert Engine (`alerts.py`)

`AlertRule.evaluate` runs
`eval(self.condition, {"__builtins__": {}}, context)`: the only
restriction placed on the evaluation is that the name `__builtins__` in
the globals maps to an empty dict.  The expression language Python
evaluates is modelled below by `PyExpr`; crucially, it retains attribute
access, whose result is determined by the interpreter's object model (the
classes and attributes of the running program) — state that lives outside
the supplied context mapping.  That object model is the `AttrEnv`
parameter. -/

/-- A Python value as visible to a condition expression. -/
inductive PyVal where
  | num (q : ℚ)
  | str (s : String)
  | bool (b : Bool)
  | none_
  | obj (id : ℕ)
  deriving Repr, DecidableEq

/-- Truthiness of a Python value (`bool(result)`). -/
def pyTruthy : PyVal → Bool
  | .num q => q ≠ 0
  | .str s => s ≠ ""
  | .bool b => b
  | .none_ => false
  | .obj _ => true

/-- The fragment of Python expressions relevant to alert conditions:
literals, context-name lookup, comparisons, boolean connectives,
arithmetic — and attribute access, which `eval` does not restrict. -/
inductive PyExpr where
  | lit (v : PyVal)
  | name (s : String)
  | lt (a b : PyExpr)
  | gt (a b : PyExpr)
  | andE (a b : PyExpr)
  | orE (a b : PyExpr)
  | notE (a : PyExpr)
  | add (a b : PyExpr)
  | mul (a b : PyExpr)
  | attr (a : PyExpr) (field : String)
  deriving Repr, DecidableEq

/-- The interpreter's object model: what `getattr v field` returns, if
anything.  This is program state *outside* the context mapping — the type
hierarchy reachable from any literal (`().__class__.__base__...`) lives
here. -/
def AttrEnv : Type := PyVal → String → Option PyVal

/-- Evaluation of a condition expression, as
`eval(condition, {"__builtins__": {}}, context)` performs it.  `none`
models a raised exception.  Name lookup sees the locals (`context`) and
the sole global `__builtins__` (an empty dict, modelled as an object with
no attributes); it does **not** see any other surrounding variable.
Attribute access consults the ambient object model `A`. -/
def pyEval (A : AttrEnv) (context : List (String × PyVal)) :
    PyExpr → Option PyVal
  | .lit v => some v
  | .name s =>
    match context.lookup s with
    | some v => some v
    | none => if s = "__builtins__" then some (.obj 0) else none
  | .lt a b => do
    let va ← pyEval A context a
    let vb ← pyEval A context b
    match va, vb with
    | .num x, .num y => some (.bool (decide (x < y)))
    | .str x, .str y => some (.bool (decide (x < y)))
    | _, _ => none
  | .gt a b => do
    let va ← pyEval A context a
    let vb ← pyEval A context b
    match va, vb with
    | .num x, .num y => some (.bool (decide (y < x)))
    | .str x, .str y => some (.bool (decide (y < x)))
    | _, _ => none
  | .andE a b => do
    let va ← pyEval A context a
    if pyTruthy va then pyEval A context b else some va
  | .orE a b => do
    let va ← pyEval A context a
    if pyTruthy va then some va else pyEval A context b
  | .notE a => do
    let va ← pyEval A context a
    some (.bool (! pyTruthy va))
  | .add a b => do
    let va ← pyEval A context a
    let vb ← pyEval A context b
    match va, vb with
    | .num x, .num y => some (.num (x + y))
    | .str x, .str y => some (.str (x ++ y))
    | _, _ => none
  | .mul a b => do
    let va ← pyEval A context a
    let vb ← pyEval A context b
    match va, vb with
    | .num x, .num y => some (.num (x * y))
    | _, _ => none
  | .attr a field => do
    let va ← pyEval A context a
    A va field

/-- An alert rule (`AlertRule.__init__` state). -/
structure AlertRule where
  rule_id : String
  name : String
  condition : PyExpr
  symbol : Option String
  enabled : Bool
  last_triggered : Option ℕ
  trigger_count : ℕ
  deriving Repr, DecidableEq

/-- Python truthiness of the optional symbol filter: `None` and the empty
string are falsy. -/
def symbolTruthy : Option String → Bool
  | none => false
  | some s => s ≠ ""

/-- `AlertRule.evaluate`: disabled rules and symbol-filter mismatches
short-circuit to `False` before the condition is evaluated; an exception
during evaluation (`none`) is caught and treated as `False`, otherwise the
result is `bool(...)`-coerced. -/
def ruleEvaluate (A : AttrEnv) (rule : AlertRule)
    (context : List (String × PyVal)) : Bool :=
  if ! rule.enabled then false
  else if symbolTruthy rule.symbol &&
      ! (context.lookup "symbol" == rule.symbol.map PyVal.str) then false
  else
    match pyEval A context rule.condition with
    | some v => pyTruthy v
    | none => false

/-- A recorded alert (`alert_info` dict appended to `active_alerts`). -/
structure AlertInfo where
  rule_id : String
  name : String
  symbol : String
  timestamp : ℕ
  context : List (String × PyVal)
  deriving Repr, DecidableEq

/-- `AlertManager` state: the rule mapping is a Python dict keyed by
`rule.rule_id`, modelled as its insertion-ordered value list (ids are
unique); `active_alerts` is the capped history. -/
structure AlertManager where
  rules : List AlertRule
  active_alerts : List AlertInfo
  deriving Repr, DecidableEq

/-- `AlertRule.trigger`: sets `last_triggered` and increments
`trigger_count`. -/
def triggerRule (now : ℕ) (rule : AlertRule) : AlertRule :=
  { rule with
    last_triggered := some now
    trigger_count := rule.trigger_count + 1 }

/-- The `alert_info` dict built by `check_alerts` on a trigger. -/
def mkAlertInfo (now : ℕ) (context : List (String × PyVal))
    (rule : AlertRule) : AlertInfo :=
  { rule_id := rule.rule_id
    name := rule.name
    symbol :=
      match context.lookup "symbol" with
      | some (.str s) => s
      | _ => "N/A"
    timestamp := now
    context := context }

/-- Processing of a single rule inside `AlertManager.check_alerts`: on a
true evaluation the rule is triggered (count incremented, `last_triggered`
set), an `alert_info` is appended with the history capped at 100, and a
callback invocation `(rule, context)` is recorded; callback exceptions are
caught, so the invocation list is the only observable effect. -/
def checkOneRule (A : AttrEnv) (now : ℕ)
    (context : List (String × PyVal))
    (acc : List AlertRule × List AlertInfo × List (String × List (String × PyVal)))
    (rule : AlertRule) :
    List AlertRule × List AlertInfo × List (String × List (String × PyVal)) :=
  if ruleEvaluate A rule context then
    let hist' := acc.2.1 ++ [mkAlertInfo now context rule]
    (acc.1 ++ [triggerRule now rule],
      if hist'.length > 100 then hist'.tail else hist',
      acc.2.2 ++ [(rule.rule_id, context)])
  else (acc.1 ++ [rule], acc.2.1, acc.2.2)

/-- `AlertManager.check_alerts`: evaluates every rule against the context
in insertion order, returning the updated manager state and the list of
callback invocations. -/
def check_alerts (A : AttrEnv) (now : ℕ) (mgr : AlertManager)
    (context : List (String × PyVal)) :
    AlertManager × List (String × List (String × PyVal)) :=
  let (rules', hist', calls) :=
    mgr.rules.foldl (checkOneRule A now context)
      ([], mgr.active_alerts, [])
  ({ rules := rules', active_alerts := hist' }, calls)

/-! ## Pipeline Coordinator lifecycle (`data_processor.py`,
`DataProcessor.start` / `DataProcessor.stop`)

Only the lifecycle state machine is modelled: the `running` flag, the
websocket client (created by `start`, told to disconnect by `stop`) and
the set of spawned worker threads, together with the log records each call
emits. -/

/-- Log levels used by the pipeline lifecycle methods. -/
inductive LogLevel where
  | warning
  | info
  deriving Repr, DecidableEq

/-- `BinanceWebSocketClient` lifecycle state. -/
structure WsClient where
  running : Bool
  deriving Repr, DecidableEq

/-- `BinanceWebSocketClient.stop`: clears the running flag and closes the
socket; it is idempotent on this state. -/
def wsStop (c : WsClient) : WsClient := { c with running := false }

/-- `DataProcessor` lifecycle state. -/
structure DataProcessor where
  running : Bool
  ws_client : Option WsClient
  resampling_threads : List String
  alert_thread : Bool
  deriving Repr, DecidableEq

/-- A freshly constructed `DataProcessor`. -/
def procInit : DataProcessor :=
  { running := false, ws_client := none, resampling_threads := [],
    alert_thread := false }

/-- `DataProcessor.start`: a second start on a running pipeline warns and
returns with the state untouched; otherwise the running flag is set, a
websocket client is created and started, one resampling worker per
configured timeframe is spawned, and the alert worker is spawned. -/
def procStart (p : DataProcessor) : DataProcessor × List (LogLevel × String) :=
  if p.running then
    (p, [(LogLevel.warning, "Data processor already running")])
  else
    ({ running := true
       ws_client := some { running := true }
       resampling_threads := TIMEFRAMES.map Prod.fst
       alert_thread := true },
      [(LogLevel.info, "Data processor started")])

/-- `DataProcessor.stop`: unconditionally clears the running flag, stops
the websocket client when one exists, and logs an informational message —
there is no running-state check and no warning. -/
def procStop (p : DataProcessor) : DataProcessor × List (LogLevel × String) :=
  ({ p with running := false, ws_client := p.ws_client.map wsStop },
    [(LogLevel.info, "Data processor stopped")])

/-! ## Concrete storage rows used in the evaluations below -/

/-- A tick with timestamp 5 for symbol `a`. -/
def tick5a : Tick := ⟨5, "a", 1, 1⟩

/-- A tick with timestamp 9 for symbol `a`. -/
def tick9a : Tick := ⟨9, "a", 2, 1⟩

/-- A tick with timestamp 7 for symbol `a`. -/
def tick7a : Tick := ⟨7, "a", 3, 1⟩

/-- A tick with timestamp 7 for symbol `b`. -/
def tick7b : Tick := ⟨7, "b", 4, 1⟩

/-- A tick table inserted out of timestamp order, with a timestamp tie. -/
def sampleTickTable : List Tick := [tick5a, tick9a, tick7a, tick7b]

/-- A single stored 1-minute bar. -/
def sampleBar : Bar := ⟨60000, "a", 1, 2, 0, 1, 3, 2⟩

/-- Bar tables holding `sampleBar` for every timeframe. -/
def sampleBarTables : String → List Bar := fun _ => [sampleBar]

/-- A disabled alert rule with an always-true condition. -/
def ruleDisabled : AlertRule :=
  ⟨"r1", "disabled", .lit (.bool true), none, false, none, 0⟩

/-- An enabled rule scoped to `ethusdt` with an always-true condition. -/
def ruleEth : AlertRule :=
  ⟨"r2", "eth only", .lit (.bool true), some "ethusdt", true, none, 0⟩

/-- An enabled rule scoped to `btcusdt` with an always-true condition. -/
def ruleBtc : AlertRule :=
  ⟨"r3", "btc", .lit (.bool true), some "btcusdt", true, none, 0⟩

/-- An alert manager holding the three rules above, with empty history. -/
def sampleMgr : AlertManager := ⟨[ruleDisabled, ruleEth, ruleBtc], []⟩

/-- A metrics context for symbol `btcusdt`. -/
def sampleCtx : List (String × PyVal) :=
  [("symbol", .str "btcusdt"), ("zscore", .num 3)]

/-- An object model with no attributes at all. -/
def emptyAttrEnv : AttrEnv := fun _ _ => none

/-- A fragment of CPython's real object model: every int literal exposes
`__class__` (the `int` type object, here `obj 1`), from which the type
hierarchy — and through `__base__`/`__subclasses__` every loaded class —
is reachable.  This state lives entirely outside any metrics context. -/
def pyObjectModel : AttrEnv := fun v field =>
  match v, field with
  | .num _, "__class__" => some (.obj 1)
  | _, _ => none

/-- An enabled, unscoped rule whose condition is the escape expression
`(1).__class__`: a pure attribute access on a literal, exactly what
`eval(condition, {"__builtins__": {}}, context)` happily evaluates. -/
def ruleEscape : AlertRule :=
  ⟨"esc", "escape", .attr (.lit (.num 1)) "__class__", none, true, none, 0⟩

/-- A 15-point spread whose 11-window z-scores at the backtest loop
indices (11 to 14) are `[-10/3, 0, 30033/9961, 0]`: a dip below `-3`,
back to 0, a spike above `+3` (`30033/9961 > 3`), back to 0. -/
def scenarioSpread : List ℚ :=
  [0, 0, 0, 0, 0, 0, 0, 0, 0, 0, 0, -33, -33 / 10, 3300, 32637 / 100]

/-- A small tick batch for two symbols: two ticks of symbol `x` in the
same 1-minute bucket, one early tick of symbol `y`, one later tick of
symbol `x` in another bucket. -/
def sampleTicks : List Tick :=
  [⟨61000, "x", 100, 1⟩, ⟨61500, "x", 105, 2⟩, ⟨500, "y", 7, 1⟩,
    ⟨125000, "x", 90, 1⟩]

/-- The bars `resample_ticks` produces from `sampleTicks` at `1m`. -/
def sampleTicksBars : List Bar := (resample_ticks sampleTicks "1m").getD []

/-! # Theorems -/

/-! ## C1: the Kalman hedge-ratio estimator follows the spec recursion -/

theorem alignPairs_length_le (rows : List (Option ℚ × Option ℚ)) :
    (alignPairs rows).length ≤ rows.length :=
  List.length_filterMap_le _ _

theorem kalmanBetas_length (q m : ℚ) (s : ℚ × ℚ) (l : List (ℚ × ℚ)) :
    (kalmanBetas q m s l).length = l.length := by
  induction l generalizing s with
  | nil => rfl
  | cons o rest ih => simp [kalmanBetas, ih]

theorem kalmanBetas_getD (q m : ℚ) (l : List (ℚ × ℚ)) :
    ∀ (s : ℚ × ℚ) (j : ℕ), j < l.length →
      (kalmanBetas q m s l).getD j 0 =
        ((l.take (j + 1)).foldl (kalmanStep q m) s).1 := by
  induction l with
  | nil => intro s j h; simp at h
  | cons o rest ih =>
    intro s j h
    cases j with
    | zero => simp [kalmanBetas]
    | succ j =>
      have hj : j < rest.length := by simpa using h
      simp only [kalmanBetas, List.getD_cons_succ, List.take_succ_cons,
        List.foldl_cons]
      exact ih _ j hj

theorem kalmanStep_eq_spec (q m : ℚ) (s : ℚ × ℚ) (yx : ℚ × ℚ) :
    kalmanStep q m s yx =
      (s.1 + (s.2 + q) * yx.2 / (yx.2 ^ 2 * (s.2 + q) + m) *
          (yx.1 - s.1 * yx.2),
        (1 - (s.2 + q) * yx.2 / (yx.2 ^ 2 * (s.2 + q) + m) * yx.2) *
          (s.2 + q)) := by
  simp only [kalmanStep, Prod.mk.injEq]
  constructor <;> ring_nf

theorem kalmanSpecState_eq_foldl (obs : List (ℚ × ℚ)) (q m b0 P0 : ℚ) :
    ∀ i : ℕ, i < obs.length →
      kalmanSpecState obs q m b0 P0 i =
        (obs.tail.take i).foldl (kalmanStep q m) (b0, P0) := by
  intro i
  induction i with
  | zero => intro _; simp [kalmanSpecState]
  | succ i ih =>
    intro h
    have hi : i < obs.length := Nat.lt_of_succ_lt h
    have htl : i < obs.tail.length := by
      cases obs with
      | nil => simp at h
      | cons a l => simpa using Nat.lt_of_succ_lt_succ h
    have hgd : obs.tail.getD i (0, 0) = obs.getD (i + 1) (0, 0) := by
      cases obs with
      | nil => simp at h
      | cons a l => rfl
    have htake : obs.tail.take (i + 1) =
        obs.tail.take i ++ [obs.tail.getD i (0, 0)] := by
      rw [List.getD_eq_getElem _ _ htl, ← List.concat_eq_append]
      exact (List.take_concat_get _ _ htl).symm
    rw [htake, List.foldl_append, ← ih hi, hgd]
    simp only [List.foldl_cons, List.foldl_nil]
    rw [kalmanStep_eq_spec]
    rfl

theorem zipWith_getD (f : ℚ × ℚ → ℚ → ℚ) (l1 : List (ℚ × ℚ)) :
    ∀ (l2 : List ℚ) (i : ℕ), i < l1.length → i < l2.length →
      (List.zipWith f l1 l2).getD i 0 =
        f (l1.getD i (0, 0)) (l2.getD i 0) := by
  induction l1 with
  | nil => intro l2 i h; simp at h
  | cons a l ih =>
    intro l2 i h1 h2
    cases l2 with
    | nil => simp at h2
    | cons b l2 =>
      cases i with
      | zero => rfl
      | succ i =>
        simp only [List.zipWith_cons_cons, List.getD_cons_succ]
        exact ih l2 i (by simpa using h1) (by simpa using h2)

/-- C1: whenever the inner-aligned input has `n ≥ 2` rows,
`compute_kalman_hedge_ratio` (at its defaults `q = 0.01`, `m = 0.1`,
initial beta `1.0`, initial `P = 1.0`) returns a beta sequence of length
`n` whose first entry is exactly the initial beta, whose entry at every
`i ∈ [1, n-1]` equals the spec recursion
`P_pred = P + q; r = y_i - beta*x_i; S = x_i^2*P_pred + m;
K = P_pred*x_i/S; beta' = beta + K*r; P' = (1 - K*x_i)*P_pred`, and whose
returned spread at every index `i` equals `y_i - beta_i * x_i`. -/
theorem c1_kalman_recursion (rows : List (Option ℚ × Option ℚ))
    (h2 : 2 ≤ (alignPairs rows).length) :
    let aligned := alignPairs rows
    let n := aligned.length
    let out := compute_kalman_hedge_ratio rows 1 (1 / 100) (1 / 10)
    out.1.length = n ∧
    out.1.getD 0 0 = 1 ∧
    (∀ i : ℕ, 1 ≤ i → i < n →
      out.1.getD i 0 =
        (kalmanSpecState aligned (1 / 100) (1 / 10) 1 1 i).1) ∧
    out.2.length = n ∧
    (∀ i : ℕ, i < n →
      out.2.getD i 0 =
        (aligned.getD i (0, 0)).1 -
          out.1.getD i 0 * (aligned.getD i (0, 0)).2) := by
  intro aligned n out
  have hrows : ¬ rows.length < 2 :=
    Nat.not_lt.mpr (le_trans h2 (alignPairs_length_le rows))
  have haligned : ¬ aligned.length < 2 := Nat.not_lt.mpr h2
  have hout : out =
      (1 :: kalmanBetas (1 / 100) (1 / 10) (1, 1) aligned.tail,
        List.zipWith (fun (yx : ℚ × ℚ) b => yx.1 - b * yx.2) aligned
          (1 :: kalmanBetas (1 / 100) (1 / 10) (1, 1) aligned.tail)) := by
    simp only [out, compute_kalman_hedge_ratio, if_neg hrows]
    simp only [aligned] at haligned ⊢
    rw [if_neg haligned]
  have hlen1 : out.1.length = n := by
    rw [hout]
    simp [kalmanBetas_length, n]
    have : 1 ≤ aligned.length := le_trans (by norm_num) h2
    omega
  have hconslen : (1 :: kalmanBetas (1 / 100) (1 / 10) (1, 1)
      aligned.tail).length = n := by
    have := hlen1
    rw [hout] at this
    exact this
  refine ⟨hlen1, ?_, ?_, ?_, ?_⟩
  · rw [hout]
    rfl
  · intro i h1 hn
    rw [hout]
    have hi1 : i - 1 < aligned.tail.length := by
      simp only [List.length_tail]
      omega
    have hcons : (1 :: kalmanBetas (1 / 100) (1 / 10) (1, 1)
        aligned.tail).getD i 0 =
        (kalmanBetas (1 / 100) (1 / 10) (1, 1) aligned.tail).getD (i - 1)
          0 := by
      cases i with
      | zero => omega
      | succ j => simp
    simp only [hcons]
    rw [kalmanBetas_getD _ _ _ _ _ hi1,
      kalmanSpecState_eq_foldl aligned _ _ _ _ i hn]
    have hsucc : i - 1 + 1 = i := by omega
    rw [hsucc]
  · rw [hout]
    simp only [List.length_zipWith, hconslen]
    omega
  · intro i hn
    rw [hout]
    simp only
    rw [zipWith_getD _ _ _ i hn (by rw [hconslen]; exact hn)]

/-- Witness for C1 at a concrete input with one missing row and three
aligned rows. -/
theorem c1_kalman_recursion_witness :
    2 ≤ (alignPairs [((some 10 : Option ℚ), (some 5 : Option ℚ)),
        (none, some 3), (some 12, some 6), (some 8, some 4)]).length ∧
    (( compute_kalman_hedge_ratio [((some 10 : Option ℚ),
        (some 5 : Option ℚ)), (none, some 3), (some 12, some 6),
        (some 8, some 4)] 1 (1 / 100) (1 / 10)).1.getD 1 0 =
      (kalmanSpecState (alignPairs [((some 10 : Option ℚ),
        (some 5 : Option ℚ)), (none, some 3), (some 12, some 6),
        (some 8, some 4)]) (1 / 100) (1 / 10) 1 1 1).1) := by
  refine ⟨by decide, ?_⟩
  have h := c1_kalman_recursion [((some 10 : Option ℚ),
    (some 5 : Option ℚ)), (none, some 3), (some 12, some 6),
    (some 8, some 4)] (by decide)
  exact h.2.2.1 1 (by decide) (by decide)

/-! ## C7: input-insufficiency yields the explicitly-empty result -/

/-- C7: with too few observations the analytics routines return the
explicitly-empty result (`none`, the source's `{}`) and never raise:
`compute_price_stats` for fewer than 2 observations, the ADF test for
fewer than 10 observations, and the OLS/robust hedge-ratio routines when
fewer than 2 aligned rows remain after dropping missing values — for every
delegated numerical oracle, i.e. however the delegated routine behaves.
All four embeddings are total functions, so no input raises. -/
theorem c7_insufficient_input_empty
    (adfuller : List ℚ → Except String AdfRaw)
    (ols : List (ℚ × ℚ) → Except String OlsResult)
    (fit : String → List (ℚ × ℚ) → Except String (ℚ × ℚ))
    (prices : List ℚ) (series : List (Option ℚ))
    (y x y2 x2 : List (Option ℚ)) (method : String)
    (hp : prices.length < 2) (hs : series.length < 10)
    (hyx : (alignPairs (y.zip x)).length < 2)
    (hyx2 : (alignPairs (y2.zip x2)).length < 2) :
    compute_price_stats prices = none ∧
    compute_adf_test adfuller series = none ∧
    compute_ols_regression ols y x = none ∧
    compute_robust_regression fit y2 x2 method = none := by
  refine ⟨?_, ?_, ?_, ?_⟩
  · simp [compute_price_stats, hp]
  · simp [compute_adf_test, hs]
  · by_cases hpre : y.length < 2 ∨ x.length < 2 ∨ y.length ≠ x.length
    · simp [compute_ols_regression, hpre]
    · simp only [compute_ols_regression, if_neg hpre]
      rw [if_pos hyx]
  · by_cases hpre : y2.length < 2 ∨ x2.length < 2 ∨ y2.length ≠ x2.length
    · simp [compute_robust_regression, hpre]
    · simp only [compute_robust_regression, if_neg hpre]
      rw [if_pos hyx2]

/-- Witness for C7: one short price list, a 9-entry series, and two pairs
of length-2 series whose aligned row count is below 2, with oracles that
would succeed if they were ever consulted. -/
theorem c7_insufficient_input_empty_witness :
    ([(5 : ℚ)].length < 2 ∧
      ((List.replicate 9 (some (1 : ℚ))).length < 10) ∧
      (alignPairs (([some 1, none] : List (Option ℚ)).zip
        ([none, some 2] : List (Option ℚ)))).length < 2 ∧
      (alignPairs (([none, none] : List (Option ℚ)).zip
        ([some 3, some 4] : List (Option ℚ)))).length < 2) ∧
    (compute_price_stats [(5 : ℚ)] = none ∧
      compute_adf_test (fun l => .ok ⟨1, 1, 0, l.length, []⟩)
        (List.replicate 9 (some (1 : ℚ))) = none ∧
      compute_ols_regression (fun _ => .ok ⟨0, 1, 1, 0, 0, []⟩)
        [some 1, none] [none, some 2] = none ∧
      compute_robust_regression (fun _ _ => .ok (0, 1))
        [none, none] [some 3, some 4] "huber" = none) := by
  refine ⟨⟨by decide, by decide, by decide, by decide⟩, ?_⟩
  exact c7_insufficient_input_empty
    (fun l => .ok ⟨1, 1, 0, l.length, []⟩)
    (fun _ => .ok ⟨0, 1, 1, 0, 0, []⟩) (fun _ _ => .ok (0, 1))
    [(5 : ℚ)] (List.replicate 9 (some (1 : ℚ)))
    [some 1, none] [none, some 2] [none, none] [some 3, some 4] "huber"
    (by decide) (by decide) (by decide) (by decide)

/-! ## C9: pipeline lifecycle misuse -/

/-- C9 counterexample: the claim says stopping a non-running pipeline is
"a no-op with a warning", but at the concrete non-running state
`procInit` the source's `stop` emits no warning at all (only an
informational message): its log output contains zero warning-level
records. -/
theorem c9_stop_counterexample :
    procInit.running = false ∧
    ((procStop procInit).2.filter fun l => l.1 == LogLevel.warning) =
      [] ∧
    (procStop procInit).2 =
      [(LogLevel.info, "Data processor stopped")] := by
  refine ⟨rfl, rfl, rfl⟩

/-- C9 (amended): calling `start` on an already-running pipeline is a
no-op with a warning — the running flag, worker set and websocket client
are unchanged and no duplicate workers are started; calling `stop` on a
non-running pipeline (whose client, when present, is already stopped, as
is the case in every reachable non-running state) is likewise a no-op,
but it logs only an informational message and **no warning**.  Both
embeddings are total functions, so neither call raises. -/
theorem c9_lifecycle_amended (p q : DataProcessor)
    (hp : p.running = true) (hq : q.running = false)
    (hqc : ∀ c, q.ws_client = some c → c.running = false) :
    (procStart p).1 = p ∧
    (procStart p).2 =
      [(LogLevel.warning, "Data processor already running")] ∧
    (procStop q).1 = q ∧
    ((procStop q).2.filter fun l => l.1 == LogLevel.warning) = [] := by
  refine ⟨?_, ?_, ?_, rfl⟩
  · simp [procStart, hp]
  · simp [procStart, hp]
  · have hmap : q.ws_client.map wsStop = q.ws_client := by
      cases hcl : q.ws_client with
      | none => rfl
      | some c =>
        have := hqc c hcl
        cases c
        simp_all [wsStop]
    simp [procStop, hmap, ← hq]

/-- Witness for C9 (amended) at a freshly started pipeline and a fresh
one. -/
theorem c9_lifecycle_amended_witness :
    ((procStart procInit).1.running = true ∧ procInit.running = false) ∧
    ((procStart (procStart procInit).1).1 = (procStart procInit).1 ∧
      (procStop procInit).1 = procInit) := by
  refine ⟨⟨rfl, rfl⟩, ?_, ?_⟩
  · exact (c9_lifecycle_amended (procStart procInit).1 procInit rfl rfl
      (by intro c hc; simp [procInit] at hc)).1
  · exact (c9_lifecycle_amended (procStart procInit).1 procInit rfl rfl
      (by intro c hc; simp [procInit] at hc)).2.2.1

/-! ## C10: storage read ordering and limits -/

theorem queryRows_sorted {α : Type} (ts : α → ℕ) (rowMatch : α → Bool)
    (st en lim : Option ℕ) (table : List α) :
    (queryRows ts rowMatch st en lim table).Sorted (ascByTs ts) := by
  unfold queryRows
  exact List.sorted_insertionSort _ _

/-- With a non-zero limit `n`, the query returns `min n k` of the `k`
matching rows, and every excluded matching row has a timestamp no greater
than every returned row's. -/
theorem queryRows_top {α : Type} (ts : α → ℕ) (rowMatch : α → Bool)
    (st en : Option ℕ) (n : ℕ) (hn : n ≠ 0) (table : List α) :
    let matching := table.filter (rowInRange ts rowMatch st en)
    let out := queryRows ts rowMatch st en (some n) table
    out.length = min n matching.length ∧
    ∃ rest : List α, matching.Perm (out ++ rest) ∧
      ∀ a ∈ out, ∀ b ∈ rest, ts b ≤ ts a := by
  intro matching out
  have hout : out =
      ((matching.insertionSort (descByTs ts)).take n).insertionSort
        (ascByTs ts) := by
    simp only [out, queryRows, if_pos hn, matching]
  have hdlen : (matching.insertionSort (descByTs ts)).length =
      matching.length := (List.perm_insertionSort _ _).length_eq
  constructor
  · rw [hout, (List.perm_insertionSort _ _).length_eq,
      List.length_take, hdlen]
  · refine ⟨(matching.insertionSort (descByTs ts)).drop n, ?_, ?_⟩
    · have p1 : matching.Perm (matching.insertionSort (descByTs ts)) :=
        (List.perm_insertionSort _ _).symm
      have p2 : matching.insertionSort (descByTs ts) =
          (matching.insertionSort (descByTs ts)).take n ++
            (matching.insertionSort (descByTs ts)).drop n :=
        (List.take_append_drop _ _).symm
      have p3 : ((matching.insertionSort (descByTs ts)).take n).Perm
          out := by
        rw [hout]
        exact (List.perm_insertionSort _ _).symm
      exact (p2 ▸ p1).trans (p3.append_right _)
    · intro a ha b hb
      have ha' : a ∈ (matching.insertionSort (descByTs ts)).take n := by
        have hp : List.Perm out
            ((matching.insertionSort (descByTs ts)).take n) := by
          rw [hout]; exact List.perm_insertionSort _ _
        exact hp.mem_iff.mp ha
      have hsorted : List.Pairwise (descByTs ts)
          (matching.insertionSort (descByTs ts)) :=
        List.sorted_insertionSort _ _
      have hsplit := hsorted
      rw [← List.take_append_drop n (matching.insertionSort (descByTs ts)),
        List.pairwise_append] at hsplit
      exact hsplit.2.2 a ha' b hb

/-- C10 counterexample: the claim quantifies over every supplied limit
`N`, but a supplied limit of `0` is falsy in Python (`if limit:`), so no
`LIMIT` clause is applied: on a one-row table, `get_ticks` with limit `0`
returns that row instead of the `0` most-recent rows. -/
theorem c10_limit_zero_counterexample :
    get_ticks [tick5a] "a" none none (some 0) = [tick5a] ∧
    (get_ticks [tick5a] "a" none none (some 0)).length ≠ 0 := by
  refine ⟨by decide, by decide⟩

/-- C10 (amended): `get_ticks` and `get_bars` always return rows sorted
by ascending timestamp regardless of insertion order, and when a
**positive** limit `n` is supplied the returned rows are `min n k` of the
`k` matching rows such that every excluded matching row's timestamp is no
greater than every returned one's (the most recent `n`), still sorted
ascending; a supplied limit of `0` is treated as no limit. -/
theorem c10_reads_sorted_and_limited (table : List Tick)
    (tables : String → List Bar) (sym tf : String)
    (st en lim : Option ℕ) (n : ℕ) (bl bl2 : List Bar) (hn : n ≠ 0)
    (hbl : get_bars tables sym tf st en lim = some bl)
    (hbl2 : get_bars tables sym tf st en (some n) = some bl2) :
    (get_ticks table sym st en lim).Sorted (ascByTs Tick.timestamp) ∧
    ((get_ticks table sym st en (some n)).length =
        min n (table.filter (rowInRange Tick.timestamp
          (fun t => t.symbol == sym) st en)).length ∧
      ∃ rest : List Tick,
        (table.filter (rowInRange Tick.timestamp
            (fun t => t.symbol == sym) st en)).Perm
          (get_ticks table sym st en (some n) ++ rest) ∧
        ∀ a ∈ get_ticks table sym st en (some n), ∀ b ∈ rest,
          b.timestamp ≤ a.timestamp) ∧
    bl.Sorted (ascByTs Bar.timestamp) ∧
    (bl2.length = min n ((tables tf).filter (rowInRange Bar.timestamp
        (fun b => b.symbol == sym) st en)).length ∧
      ∃ rest : List Bar,
        ((tables tf).filter (rowInRange Bar.timestamp
            (fun b => b.symbol == sym) st en)).Perm (bl2 ++ rest) ∧
        ∀ a ∈ bl2, ∀ b ∈ rest, b.timestamp ≤ a.timestamp) := by
  have hbars : ∀ l : Option ℕ, ∀ res : List Bar,
      get_bars tables sym tf st en l = some res →
      res = queryRows Bar.timestamp (fun b => b.symbol == sym) st en l
        (tables tf) := by
    intro l res h
    unfold get_bars at h
    cases hl : TIMEFRAMES.lookup tf with
    | none => rw [hl] at h; exact absurd h (by simp)
    | some s => rw [hl] at h; simpa using h.symm
  refine ⟨queryRows_sorted _ _ _ _ _ _,
    queryRows_top Tick.timestamp (fun t => t.symbol == sym) st en n hn
      table, ?_, ?_⟩
  · rw [hbars lim bl hbl]
    exact queryRows_sorted _ _ _ _ _ _
  · rw [hbars (some n) bl2 hbl2]
    exact queryRows_top Bar.timestamp (fun b => b.symbol == sym) st en n
      hn (tables tf)

/-- Witness for C10 (amended) on a four-row tick table (inserted out of
order, with a timestamp tie) and a one-bar table, with limit `2`. -/
theorem c10_reads_sorted_and_limited_witness :
    ((2 : ℕ) ≠ 0 ∧
      get_bars sampleBarTables "a" "1m" none none (some 5) =
        some [sampleBar] ∧
      get_bars sampleBarTables "a" "1m" none none (some 2) =
        some [sampleBar]) ∧
    (get_ticks sampleTickTable "a" none none (some 5)).Sorted
      (ascByTs Tick.timestamp) ∧
    (get_ticks sampleTickTable "a" none none (some 2)).length =
      min 2 (sampleTickTable.filter (rowInRange Tick.timestamp
        (fun t => t.symbol == "a") none none)).length := by
  refine ⟨⟨by decide, by decide, by decide⟩, ?_, ?_⟩
  · exact (c10_reads_sorted_and_limited sampleTickTable sampleBarTables
      "a" "1m" none none (some 5) 2 [sampleBar] [sampleBar] (by decide)
      (by decide) (by decide)).1
  · exact (c10_reads_sorted_and_limited sampleTickTable sampleBarTables
      "a" "1m" none none (some 5) 2 [sampleBar] [sampleBar] (by decide)
      (by decide) (by decide)).2.1.1

/-! ## C3: the symmetric mean-reversion scenario -/

theorem btLoop_append (entry exit_ : ℚ) (l1 l2 : List BtItem) :
    ∀ st : BtState,
      btLoop entry exit_ st (l1 ++ l2) =
        ((btLoop entry exit_ (btLoop entry exit_ st l1).1 l2).1,
          (btLoop entry exit_ st l1).2 ++
            (btLoop entry exit_ (btLoop entry exit_ st l1).1 l2).2) := by
  induction l1 with
  | nil => intro st; simp [btLoop]
  | cons it rest ih =>
    intro st
    simp only [List.cons_append, btLoop, List.append_eq]
    rw [ih (btStep entry exit_ st it)]

/-- A flat state passes unchanged over items whose z-score triggers no
entry (`-2 ≤ z ≤ 2` or `NaN`), accumulating a constant equity curve. -/
theorem btLoop_flat_calm (items : List BtItem)
    (hz : ∀ it ∈ items, ∀ q : ℚ, it.2.1 = some q → -2 ≤ q ∧ q ≤ 2) :
    ∀ ts e, btLoop 2 0 ⟨0, ts, e⟩ items =
      (⟨0, ts, e⟩, List.replicate items.length e) := by
  induction items with
  | nil => intro ts e; rfl
  | cons it rest ih =>
    intro ts e
    have hstep : btStep 2 0 ⟨0, ts, e⟩ it = ⟨0, ts, e⟩ := by
      unfold btStep
      rcases it with ⟨i, z, p⟩
      rcases z with _ | q
      · rfl
      · have hq := hz (i, some q, p) (List.mem_cons_self _ _) q rfl
        have h1 : nanLt (some q) (-2) = false := by
          simp [nanLt]
          linarith [hq.1]
        have h2 : nanGt (some q) 2 = false := by
          simp [nanGt]
          exact hq.2
        simp [h1, h2]
    simp only [btLoop, hstep,
      ih (fun u hu => hz u (List.mem_cons_of_mem it hu)) ts e]
    rfl

/-- A held long position passes unchanged over strictly negative
z-scores (no exit is possible below the exit threshold `0`). -/
theorem btLoop_long_hold (items : List BtItem)
    (hz : ∀ it ∈ items, ∃ q : ℚ, it.2.1 = some q ∧ q < 0) :
    ∀ ts e, btLoop 2 0 ⟨1, ts, e⟩ items =
      (⟨1, ts, e⟩, List.replicate items.length e) := by
  induction items with
  | nil => intro ts e; rfl
  | cons it rest ih =>
    intro ts e
    rcases hz it (List.mem_cons_self _ _) with ⟨q, hq, hqneg⟩
    have hstep : btStep 2 0 ⟨1, ts, e⟩ it = ⟨1, ts, e⟩ := by
      unfold btStep
      rcases it with ⟨i, z, p⟩
      simp only at hq
      rw [hq]
      have h1 : nanGe (some q) 0 = false := by
        simp [nanGe]
        exact hqneg
      simp [h1, nanLe]
    simp only [btLoop, hstep,
      ih (fun u hu => hz u (List.mem_cons_of_mem it hu)) ts e]
    rfl

/-- A held short position passes unchanged over strictly positive
z-scores. -/
theorem btLoop_short_hold (items : List BtItem)
    (hz : ∀ it ∈ items, ∃ q : ℚ, it.2.1 = some q ∧ 0 < q) :
    ∀ ts e, btLoop 2 0 ⟨-1, ts, e⟩ items =
      (⟨-1, ts, e⟩, List.replicate items.length e) := by
  induction items with
  | nil => intro ts e; rfl
  | cons it rest ih =>
    intro ts e
    rcases hz it (List.mem_cons_self _ _) with ⟨q, hq, hqpos⟩
    have hstep : btStep 2 0 ⟨-1, ts, e⟩ it = ⟨-1, ts, e⟩ := by
      unfold btStep
      rcases it with ⟨i, z, p⟩
      simp only at hq
      rw [hq]
      have h1 : nanLe (some q) 0 = false := by
        simp [nanLe]
        linarith
      simp [h1, nanGe]
    simp only [btLoop, hstep,
      ih (fun u hu => hz u (List.mem_cons_of_mem it hu)) ts e]
    rfl

/-- On a strictly negative z stretch that dips below `-2`, a flat state
enters exactly one long trade (at the first dip) and holds it to the end
of the stretch, with the equity untouched. -/
theorem btLoop_enter_long (items : List BtItem)
    (hneg : ∀ it ∈ items, ∃ q : ℚ, it.2.1 = some q ∧ q < 0)
    (hdip : ∃ it ∈ items, ∃ q : ℚ, it.2.1 = some q ∧ q < -2) :
    ∀ ts e, ∃ (i : ℕ) (p q0 : ℚ), q0 < -2 ∧
      btLoop 2 0 ⟨0, ts, e⟩ items =
        (⟨1, ts ++ [⟨"LONG", i, p, q0, none⟩], e⟩,
          List.replicate items.length e) := by
  induction items with
  | nil =>
    rcases hdip with ⟨it, hit, _⟩
    exact absurd hit (List.not_mem_nil it)
  | cons it rest ih =>
    intro ts e
    rcases it with ⟨i, z, p⟩
    rcases hneg (i, z, p) (List.mem_cons_self _ _) with ⟨q, hq, hqneg⟩
    simp only at hq
    by_cases hq2 : q < -2
    · have hstep : btStep 2 0 ⟨0, ts, e⟩ (i, z, p) =
          ⟨1, ts ++ [⟨"LONG", i, p, q, none⟩], e⟩ := by
        unfold btStep
        rw [hq]
        have h1 : nanLt (some q) (-2) = true := by
          simp [nanLt]
          exact hq2
        simp [h1]
      have hhold := btLoop_long_hold rest
        (fun u hu => hneg u (List.mem_cons_of_mem _ hu))
        (ts ++ [⟨"LONG", i, p, q, none⟩]) e
      refine ⟨i, p, q, hq2, ?_⟩
      simp only [btLoop, hstep, hhold]
      rfl
    · have hstep : btStep 2 0 ⟨0, ts, e⟩ (i, z, p) = ⟨0, ts, e⟩ := by
        unfold btStep
        rw [hq]
        have h1 : nanLt (some q) (-2) = false := by
          simp [nanLt]
          linarith [not_lt.mp hq2]
        have h2 : nanGt (some q) 2 = false := by
          simp [nanGt]
          linarith
        simp [h1, h2]
      have hdip2 : ∃ u ∈ rest, ∃ q1 : ℚ, u.2.1 = some q1 ∧ q1 < -2 := by
        rcases hdip with ⟨u, hu, q1, hq1, hq1lt⟩
        rcases List.mem_cons.mp hu with rfl | hu2
        · exfalso
          simp only at hq1
          rw [hq] at hq1
          injection hq1 with h
          rw [← h] at hq1lt
          exact hq2 hq1lt
        · exact ⟨u, hu2, q1, hq1, hq1lt⟩
      rcases ih (fun u hu => hneg u (List.mem_cons_of_mem _ hu)) hdip2
        ts e with ⟨i1, p1, q1, hq1lt, hrec⟩
      refine ⟨i1, p1, q1, hq1lt, ?_⟩
      simp only [btLoop, hstep, hrec]
      rfl

/-- On a strictly positive z stretch that rises above `2`, a flat state
enters exactly one short trade and holds it, with the equity untouched. -/
theorem btLoop_enter_short (items : List BtItem)
    (hpos : ∀ it ∈ items, ∃ q : ℚ, it.2.1 = some q ∧ 0 < q)
    (hspike : ∃ it ∈ items, ∃ q : ℚ, it.2.1 = some q ∧ 2 < q) :
    ∀ ts e, ∃ (i : ℕ) (p q0 : ℚ), 2 < q0 ∧
      btLoop 2 0 ⟨0, ts, e⟩ items =
        (⟨-1, ts ++ [⟨"SHORT", i, p, q0, none⟩], e⟩,
          List.replicate items.length e) := by
  induction items with
  | nil =>
    rcases hspike with ⟨it, hit, _⟩
    exact absurd hit (List.not_mem_nil it)
  | cons it rest ih =>
    intro ts e
    rcases it with ⟨i, z, p⟩
    rcases hpos (i, z, p) (List.mem_cons_self _ _) with ⟨q, hq, hqpos⟩
    simp only at hq
    by_cases hq2 : 2 < q
    · have hstep : btStep 2 0 ⟨0, ts, e⟩ (i, z, p) =
          ⟨-1, ts ++ [⟨"SHORT", i, p, q, none⟩], e⟩ := by
        unfold btStep
        rw [hq]
        have h1 : nanLt (some q) (-2) = false := by
          simp [nanLt]
          linarith
        have h2 : nanGt (some q) 2 = true := by
          simp [nanGt]
          exact hq2
        simp [h1, h2]
      have hhold := btLoop_short_hold rest
        (fun u hu => hpos u (List.mem_cons_of_mem _ hu))
        (ts ++ [⟨"SHORT", i, p, q, none⟩]) e
      refine ⟨i, p, q, hq2, ?_⟩
      simp only [btLoop, hstep, hhold]
      rfl
    · have hstep : btStep 2 0 ⟨0, ts, e⟩ (i, z, p) = ⟨0, ts, e⟩ := by
        unfold btStep
        rw [hq]
        have h1 : nanLt (some q) (-2) = false := by
          simp [nanLt]
          linarith
        have h2 : nanGt (some q) 2 = false := by
          simp [nanGt]
          exact not_lt.mp hq2
        simp [h1, h2]
      have hspike2 : ∃ u ∈ rest, ∃ q1 : ℚ, u.2.1 = some q1 ∧ 2 < q1 := by
        rcases hspike with ⟨u, hu, q1, hq1, hq1lt⟩
        rcases List.mem_cons.mp hu with rfl | hu2
        · exfalso
          simp only at hq1
          rw [hq] at hq1
          injection hq1 with h
          rw [← h] at hq1lt
          exact hq2 hq1lt
        · exact ⟨u, hu2, q1, hq1, hq1lt⟩
      rcases ih (fun u hu => hpos u (List.mem_cons_of_mem _ hu)) hspike2
        ts e with ⟨i1, p1, q1, hq1lt, hrec⟩
      refine ⟨i1, p1, q1, hq1lt, ?_⟩
      simp only [btLoop, hstep, hrec]
      rfl

theorem closeLast_concat (ts : List Trade) (T : Trade) (pos : ℤ)
    (i : ℕ) (p : ℚ) (z : Option ℚ) :
    closeLast (ts ++ [T]) pos i p z =
      (ts ++ [closeTradeAt T i p z (exitPnl pos T p)], exitPnl pos T p) := by
  unfold closeLast closeTradeAt exitPnl
  rw [List.getLast?_concat]
  simp [List.dropLast_concat]

/-- A held position exits on a zero z-score at the head of a final run of
zeros: the most recent trade is closed with the realised pnl, the
position returns flat, and the equity curve holds the new equity. -/
theorem btLoop_exit (pos : ℤ) (hpos : pos = 1 ∨ pos = -1) (i : ℕ)
    (p : ℚ) (rest : List BtItem)
    (hrest : ∀ it ∈ rest, it.2.1 = some 0)
    (ts : List Trade) (T : Trade) (e : ℚ) :
    btLoop 2 0 ⟨pos, ts ++ [T], e⟩ ((i, some 0, p) :: rest) =
      (⟨0, ts ++ [closeTradeAt T i p (some 0) (exitPnl pos T p)],
          e + exitPnl pos T p⟩,
        List.replicate (rest.length + 1) (e + exitPnl pos T p)) := by
  have hne : pos ≠ 0 := by rcases hpos with rfl | rfl <;> decide
  have hcond : ((decide (pos = 1) && nanGe (some 0) 0) ||
      (decide (pos = -1) && nanLe (some 0) (-0))) = true := by
    rcases hpos with rfl | rfl <;> norm_num [nanGe, nanLe]
  have hstep : btStep 2 0 ⟨pos, ts ++ [T], e⟩ (i, some 0, p) =
      ⟨0, ts ++ [closeTradeAt T i p (some 0) (exitPnl pos T p)],
        e + exitPnl pos T p⟩ := by
    simp only [btStep]
    rw [if_neg hne]
    simp only [hcond, closeLast_concat, if_true]
  have hcalm := btLoop_flat_calm rest
    (fun u hu q hq => by
      rw [hrest u hu] at hq
      injection hq with h
      rw [← h]
      norm_num)
    (ts ++ [closeTradeAt T i p (some 0) (exitPnl pos T p)])
    (e + exitPnl pos T p)
  simp only [btLoop, hstep, hcalm]
  rfl

theorem map_eq_append_split {α β : Type} (f : α → β) (l : List α)
    (l1 l2 : List β) (h : l.map f = l1 ++ l2) :
    ∃ m1 m2, l = m1 ++ m2 ∧ m1.map f = l1 ∧ m2.map f = l2 := by
  refine ⟨l.take l1.length, l.drop l1.length,
    (List.take_append_drop _ _).symm, ?_, ?_⟩
  · rw [List.map_take, h, List.take_left]
  · rw [List.map_drop, h, List.drop_left]

/-- Running the backtest loop from the flat initial state over any item
list whose z-scores follow the scenario shape produces exactly two
completed trades — a long, then a short — ends flat, and accumulates one
equity entry per item, starting at 100000. -/
theorem btLoop_scenario (items : List BtItem)
    (hshape : ScenarioShape (items.map fun it => it.2.1)) :
    ∃ (T1 T2 : Trade) (eq2 : ℚ) (curve : List ℚ),
      btLoop 2 0 ⟨0, [], 100000⟩ items = (⟨0, [T1, T2], eq2⟩, curve) ∧
      T1.type = "LONG" ∧ T2.type = "SHORT" ∧
      T1.exitInfo.isSome = true ∧ T2.exitInfo.isSome = true ∧
      curve.length = items.length ∧
      curve.head? = some 100000 := by
  rcases hshape with ⟨a, b, c, d, e, heq, ha, hb, hbdip, hcne, hc, hd,
    hdspike, hene, he⟩
  have heq2 : items.map (fun it => it.2.1) =
      a ++ (b ++ (c ++ (d ++ e))) := by
    rw [heq]
    simp [List.append_assoc]
  rcases map_eq_append_split _ items a (b ++ (c ++ (d ++ e))) heq2 with
    ⟨A, rest1, hitems, hAmap, hrest1⟩
  rcases map_eq_append_split _ rest1 b (c ++ (d ++ e)) hrest1 with
    ⟨B, rest2, hrest1eq, hBmap, hrest2⟩
  rcases map_eq_append_split _ rest2 c (d ++ e) hrest2 with
    ⟨C, rest3, hrest2eq, hCmap, hrest3⟩
  rcases map_eq_append_split _ rest3 d e hrest3 with
    ⟨D, E, hrest3eq, hDmap, hEmap⟩
  -- transfer the phase conditions from z-lists to item lists
  have hA0 : ∀ it ∈ A, it.2.1 = some 0 := fun it hit =>
    ha _ (hAmap ▸ List.mem_map_of_mem _ hit)
  have hAcalm : ∀ it ∈ A, ∀ q : ℚ, it.2.1 = some q → -2 ≤ q ∧ q ≤ 2 := by
    intro it hit q hq
    rw [hA0 it hit] at hq
    injection hq with h
    rw [← h]
    norm_num
  have hBneg : ∀ it ∈ B, ∃ q : ℚ, it.2.1 = some q ∧ q < 0 :=
    fun it hit => hb _ (hBmap ▸ List.mem_map_of_mem _ hit)
  have hBdip : ∃ it ∈ B, ∃ q : ℚ, it.2.1 = some q ∧ q < -2 := by
    rcases hbdip with ⟨z, hz, q, hzq, hqlt⟩
    rw [← hBmap] at hz
    rcases List.mem_map.mp hz with ⟨it, hit, hfit⟩
    exact ⟨it, hit, q, by rw [hfit]; exact hzq, by linarith⟩
  have hC0 : ∀ it ∈ C, it.2.1 = some 0 := fun it hit =>
    hc _ (hCmap ▸ List.mem_map_of_mem _ hit)
  have hDpos : ∀ it ∈ D, ∃ q : ℚ, it.2.1 = some q ∧ 0 < q :=
    fun it hit => hd _ (hDmap ▸ List.mem_map_of_mem _ hit)
  have hDspike : ∃ it ∈ D, ∃ q : ℚ, it.2.1 = some q ∧ 2 < q := by
    rcases hdspike with ⟨z, hz, q, hzq, hqlt⟩
    rw [← hDmap] at hz
    rcases List.mem_map.mp hz with ⟨it, hit, hfit⟩
    exact ⟨it, hit, q, by rw [hfit]; exact hzq, by linarith⟩
  have hE0 : ∀ it ∈ E, it.2.1 = some 0 := fun it hit =>
    he _ (hEmap ▸ List.mem_map_of_mem _ hit)
  -- the C and E phases are non-empty; expose their head items
  have hCne : C ≠ [] := by
    intro hnil
    rw [hnil] at hCmap
    exact hcne (by rw [← hCmap]; rfl)
  have hEne : E ≠ [] := by
    intro hnil
    rw [hnil] at hEmap
    exact hene (by rw [← hEmap]; rfl)
  have hBne : B ≠ [] := by
    rcases hBdip with ⟨it, hit, _⟩
    intro hnil
    rw [hnil] at hit
    exact List.not_mem_nil it hit
  rcases hCeq : C with _ | ⟨c0, crest⟩
  · exact absurd hCeq hCne
  rcases hEeq : E with _ | ⟨e0, erest⟩
  · exact absurd hEeq hEne
  rcases c0 with ⟨ic, zc, pc⟩
  have hmemc : (ic, zc, pc) ∈ C := by
    rw [hCeq]
    exact List.mem_cons_self _ _
  have hzc : zc = some 0 := hC0 (ic, zc, pc) hmemc
  rcases e0 with ⟨ie, ze, pe⟩
  have hmeme : (ie, ze, pe) ∈ E := by
    rw [hEeq]
    exact List.mem_cons_self _ _
  have hze : ze = some 0 := hE0 (ie, ze, pe) hmeme
  -- run phase A
  have hArun := btLoop_flat_calm A hAcalm [] 100000
  -- run phase B
  rcases btLoop_enter_long B hBneg hBdip [] 100000 with
    ⟨i1, p1, q1, hq1, hBrun⟩
  -- run phase C (exit long, then calm zeros)
  have hCrest : ∀ it ∈ crest, it.2.1 = some 0 := by
    intro it hit
    exact hC0 it (by rw [hCeq]; exact List.mem_cons_of_mem _ hit)
  have hCrun := btLoop_exit 1 (Or.inl rfl) ic pc crest hCrest []
    ⟨"LONG", i1, p1, q1, none⟩ 100000
  -- run phase D
  rcases btLoop_enter_short D hDpos hDspike
    [closeTradeAt ⟨"LONG", i1, p1, q1, none⟩ ic pc (some 0)
      (exitPnl 1 ⟨"LONG", i1, p1, q1, none⟩ pc)]
    (100000 + exitPnl 1 ⟨"LONG", i1, p1, q1, none⟩ pc) with
    ⟨i2, p2, q2, hq2, hDrun⟩
  -- run phase E (exit short, then calm zeros)
  have hErest : ∀ it ∈ erest, it.2.1 = some 0 := by
    intro it hit
    exact hE0 it (by rw [hEeq]; exact List.mem_cons_of_mem _ hit)
  have hErun := btLoop_exit (-1) (Or.inr rfl) ie pe erest hErest
    [closeTradeAt ⟨"LONG", i1, p1, q1, none⟩ ic pc (some 0)
      (exitPnl 1 ⟨"LONG", i1, p1, q1, none⟩ pc)]
    ⟨"SHORT", i2, p2, q2, none⟩
    (100000 + exitPnl 1 ⟨"LONG", i1, p1, q1, none⟩ pc)
  -- compose all phases
  refine ⟨closeTradeAt ⟨"LONG", i1, p1, q1, none⟩ ic pc (some 0)
      (exitPnl 1 ⟨"LONG", i1, p1, q1, none⟩ pc),
    closeTradeAt ⟨"SHORT", i2, p2, q2, none⟩ ie pe (some 0)
      (exitPnl (-1) ⟨"SHORT", i2, p2, q2, none⟩ pe),
    100000 + exitPnl 1 ⟨"LONG", i1, p1, q1, none⟩ pc +
      exitPnl (-1) ⟨"SHORT", i2, p2, q2, none⟩ pe,
    List.replicate A.length 100000 ++
      (List.replicate B.length 100000 ++
        (List.replicate (crest.length + 1)
            (100000 + exitPnl 1 ⟨"LONG", i1, p1, q1, none⟩ pc) ++
          (List.replicate D.length
              (100000 + exitPnl 1 ⟨"LONG", i1, p1, q1, none⟩ pc) ++
            List.replicate (erest.length + 1)
              (100000 + exitPnl 1 ⟨"LONG", i1, p1, q1, none⟩ pc +
                exitPnl (-1) ⟨"SHORT", i2, p2, q2, none⟩ pe)))),
    ?heqn, rfl, rfl, rfl, rfl, ?hlen, ?hhd⟩
  case heqn =>
    rw [hitems, hrest1eq, hrest2eq, hrest3eq, hCeq, hEeq]
    rw [btLoop_append, hArun]
    simp only
    rw [btLoop_append, hBrun]
    simp only
    rw [btLoop_append]
    rw [hzc, hCrun]
    simp only [List.nil_append]
    rw [btLoop_append, hDrun]
    simp only
    rw [hze, hErun]
    simp only [List.singleton_append]
  case hlen =>
    rw [hitems, hrest1eq, hrest2eq, hrest3eq, hCeq, hEeq]
    simp [List.length_append]
    omega
  case hhd =>
    rcases hA : A.length with _ | n
    · simp only [List.replicate_zero, List.nil_append]
      rcases hB : B.length with _ | m
      · exact absurd (List.length_eq_zero.mp hB) hBne
      · simp [List.replicate_succ]
    · simp [List.replicate_succ]

theorem compute_zscore_length (xs : List ℚ) (w : ℕ) (h : w ≤ xs.length) :
    (compute_zscore xs w).length = xs.length := by
  unfold compute_zscore
  rw [if_neg (Nat.not_lt.mpr h)]
  simp

theorem compute_zscore_getD (xs : List ℚ) (w i : ℕ) (h : w ≤ xs.length)
    (hi : i < xs.length) :
    (compute_zscore xs w).getD i none = zscoreAt xs w i := by
  unfold compute_zscore
  rw [if_neg (Nat.not_lt.mpr h)]
  rw [List.getD_eq_getElem _ _ (by simpa using hi)]
  simp

/-- C3: on every spread series (of length at least the window) whose
z-score path over the loop indices follows the scenario shape — flat at
0, dipping below `-3`, back to 0, rising above `+3`, back to 0 — the
backtest with entry threshold 2 and exit threshold 0 produces exactly two
completed trades, first a long then a short, and an equity curve of
length `len(spread) - window` starting from the initial capital
100000. -/
theorem c3_backtest_scenario (spread : List ℚ) (window : ℕ)
    (hw : 1 ≤ window) (hlen : window ≤ spread.length)
    (hshape : ScenarioShape
      ((compute_zscore spread window).drop window)) :
    ∃ r : BtResult, backtest_run 2 0 spread window = some r ∧
      r.total_trades = 2 ∧
      r.trades.map Trade.type = ["LONG", "SHORT"] ∧
      (∀ t ∈ r.trades, t.exitInfo.isSome = true) ∧
      r.equity_curve.length = spread.length - window ∧
      r.equity_curve.head? = some 100000 := by
  have hzlen : (compute_zscore spread window).length = spread.length :=
    compute_zscore_length spread window hlen
  have hzmap : (((List.range spread.length).drop window).map fun i =>
        ((i, (compute_zscore spread window).getD i none,
          spread.getD i 0) : BtItem)).map (fun it => it.2.1) =
      (compute_zscore spread window).drop window := by
    rw [List.map_map]
    apply List.ext_getElem
    · simp [hzlen]
    · intro j h1 h2
      simp only [List.getElem_map, List.getElem_drop, Function.comp,
        List.getElem_range]
      rw [List.getD_eq_getElem]
  rcases btLoop_scenario
      (((List.range spread.length).drop window).map fun i =>
        ((i, (compute_zscore spread window).getD i none,
          spread.getD i 0) : BtItem))
      (by rw [← hzmap] at hshape; exact hshape) with
    ⟨T1, T2, e2, curve, hrun, hT1, hT2, hT1s, hT2s, hclen, hchead⟩
  refine ⟨⟨([T1, T2].filter fun t => t.exitInfo.isSome).length,
    [T1, T2], curve, e2⟩, ?_, ?_, ?_, ?_, ?_, ?_⟩
  · unfold backtest_run
    rw [if_neg (Nat.not_lt.mpr hlen)]
    dsimp only
    rw [hrun]
    dsimp only
    rw [if_neg (by simp)]
  · simp only [List.filter, hT1s, hT2s]
    rfl
  · simp [hT1, hT2]
  · intro t ht
    rcases List.mem_cons.mp ht with rfl | ht2
    · exact hT1s
    · rcases List.mem_cons.mp ht2 with rfl | ht3
      · exact hT2s
      · exact absurd ht3 (List.not_mem_nil t)
  · rw [hclen]
    simp
  · exact hchead

/-- `Nat.sqrt` pinned down by squeezing between consecutive squares. -/
theorem nat_sqrt_eq_of (n m : ℕ) (h1 : m * m ≤ n)
    (h2 : n < (m + 1) * (m + 1)) : Nat.sqrt n = m :=
  Nat.le_antisymm (Nat.lt_succ_iff.mp (Nat.sqrt_lt.mpr h2))
    (Nat.le_sqrt.mpr h1)

/-- `Rat.sqrt` evaluated from the numerator and denominator square
roots. -/
theorem rat_sqrt_eval (q : ℚ) (n d m k : ℕ) (hnum : q.num = (n : ℤ))
    (hden : q.den = d) (hm : Nat.sqrt n = m) (hk : Nat.sqrt d = k) :
    Rat.sqrt q = mkRat (m : ℤ) k := by
  unfold Rat.sqrt
  rw [hnum, hden]
  have hint : Int.sqrt (n : ℤ) = ((Nat.sqrt n : ℕ) : ℤ) := by
    unfold Int.sqrt
    rw [Int.toNat_natCast]
  rw [hint, hm, hk]

/-- A z-score entry at a full window, in terms of the window's variance,
numerator and standard deviation values. -/
theorem zscoreAt_eval (xs : List ℚ) (w i : ℕ) (hw : ¬(i + 1 < w))
    (v num s : ℚ) (hv : sampleVar (rollingWindow xs w i) = v)
    (hv0 : ¬(v = 0))
    (hnum : xs.getD i 0 - listMean (rollingWindow xs w i) = num)
    (hs : Rat.sqrt v = s) :
    zscoreAt xs w i = some (num / s) := by
  simp only [zscoreAt]
  rw [if_neg hw, hv, if_neg hv0, hnum, hs]

/-- A z-score entry whose value sits exactly at the rolling mean is
`0` (without any square-root evaluation). -/
theorem zscoreAt_zero (xs : List ℚ) (w i : ℕ) (hw : ¬(i + 1 < w))
    (hv0 : ¬(sampleVar (rollingWindow xs w i) = 0))
    (hnum : xs.getD i 0 - listMean (rollingWindow xs w i) = 0) :
    zscoreAt xs w i = some 0 := by
  simp only [zscoreAt]
  rw [if_neg hw, if_neg hv0, hnum, zero_div]

section

attribute [local semireducible] Rat.add Rat.mul Rat.sub Rat.inv
  Rat.ofScientific

/-- Witness for C3: the concrete spread `scenarioSpread` with window 11,
whose z-score path at the loop indices is
`[-10/3, 0, 30033/9961, 0]`. -/
theorem c3_backtest_scenario_witness :
    ((1 : ℕ) ≤ 11 ∧ 11 ≤ scenarioSpread.length ∧
      ScenarioShape ((compute_zscore scenarioSpread 11).drop 11)) ∧
    (∃ r : BtResult, backtest_run 2 0 scenarioSpread 11 = some r ∧
      r.total_trades = 2 ∧
      r.trades.map Trade.type = ["LONG", "SHORT"] ∧
      (∀ t ∈ r.trades, t.exitInfo.isSome = true) ∧
      r.equity_curve.length = scenarioSpread.length - 11 ∧
      r.equity_curve.head? = some 100000) := by
  have h11 : zscoreAt scenarioSpread 11 11 = some (-10 / 3) := by
    rw [zscoreAt_eval scenarioSpread 11 11 (by decide) 99 (-30) 9
      (by decide) (by norm_num) (by decide)
      (by
        rw [rat_sqrt_eval 99 99 1 9 1 (by decide) (by decide)
          (nat_sqrt_eq_of 99 9 (by norm_num) (by norm_num))
          (nat_sqrt_eq_of 1 1 (by norm_num) (by norm_num))]
        decide)]
    norm_num
  have h12 : zscoreAt scenarioSpread 11 12 = some 0 :=
    zscoreAt_zero scenarioSpread 11 12 (by decide) (by decide)
      (by decide)
  have h13 : zscoreAt scenarioSpread 11 13 = some (30033 / 9961) := by
    rw [zscoreAt_eval scenarioSpread 11 13 (by decide)
      (99227601 / 100) (30033 / 10) (9961 / 10) (by decide)
      (by norm_num) (by decide)
      (by
        rw [rat_sqrt_eval (99227601 / 100) 99227601 100 9961 10
          (by decide) (by decide)
          (nat_sqrt_eq_of 99227601 9961 (by norm_num) (by norm_num))
          (nat_sqrt_eq_of 100 10 (by norm_num) (by norm_num))]
        decide)]
    norm_num
  have h14 : zscoreAt scenarioSpread 11 14 = some 0 :=
    zscoreAt_zero scenarioSpread 11 14 (by decide) (by decide)
      (by decide)
  have hskel : (compute_zscore scenarioSpread 11).drop 11 =
      [zscoreAt scenarioSpread 11 11, zscoreAt scenarioSpread 11 12,
        zscoreAt scenarioSpread 11 13, zscoreAt scenarioSpread 11 14] :=
    rfl
  have hdrop : (compute_zscore scenarioSpread 11).drop 11 =
      [] ++ [some (-10 / 3)] ++ [some 0] ++ [some (30033 / 9961)] ++
        [some 0] := by
    rw [hskel, h11, h12, h13, h14]
    rfl
  have hshape : ScenarioShape
      ((compute_zscore scenarioSpread 11).drop 11) := by
    refine ⟨[], [some (-10 / 3)], [some 0], [some (30033 / 9961)],
      [some 0], hdrop, ?_, ?_, ?_, ?_, ?_, ?_, ?_, ?_, ?_⟩
    · intro z hz
      exact absurd hz (List.not_mem_nil z)
    · intro z hz
      rw [List.mem_singleton.mp hz]
      exact ⟨-10 / 3, rfl, by norm_num⟩
    · exact ⟨some (-10 / 3), List.mem_singleton.mpr rfl, -10 / 3, rfl,
        by norm_num⟩
    · exact List.cons_ne_nil _ _
    · intro z hz
      exact List.mem_singleton.mp hz
    · intro z hz
      rw [List.mem_singleton.mp hz]
      exact ⟨30033 / 9961, rfl, by norm_num⟩
    · exact ⟨some (30033 / 9961), List.mem_singleton.mpr rfl,
        30033 / 9961, rfl, by norm_num⟩
    · exact List.cons_ne_nil _ _
    · intro z hz
      exact List.mem_singleton.mp hz
  exact ⟨⟨by decide, by decide, hshape⟩,
    c3_backtest_scenario scenarioSpread 11 (by decide) (by decide)
      hshape⟩

end

theorem foldl_min_le_init (l : List ℚ) (a : ℚ) : l.foldl Min.min a ≤ a := by
  induction l generalizing a with
  | nil => exact le_refl a
  | cons h t ih =>
    exact le_trans (ih (Min.min a h)) (min_le_left a h)

theorem foldl_min_le_mem (l : List ℚ) (a x : ℚ) (hx : x ∈ l) :
    l.foldl Min.min a ≤ x := by
  induction l generalizing a with
  | nil => simp at hx
  | cons h t ih =>
    rcases List.mem_cons.mp hx with rfl | hx'
    · exact le_trans (foldl_min_le_init t (Min.min a x)) (min_le_right a x)
    · exact ih (Min.min a h) hx'

theorem foldl_pick_mem {α : Type} (f : α → α → α)
    (hf : ∀ a b, f a b = a ∨ f a b = b) (l : List α) (a : α) :
    l.foldl f a ∈ a :: l := by
  induction l generalizing a with
  | nil => exact List.mem_singleton.mpr rfl
  | cons u us ih =>
    simp only [List.foldl_cons]
    rcases List.mem_cons.mp (ih (f a u)) with heq | hmem
    · rcases hf a u with h2 | h2
      · rw [heq, h2]
        exact List.mem_cons_self _ _
      · rw [heq, h2]
        exact List.mem_cons_of_mem _ (List.mem_cons_self _ _)
    · exact List.mem_cons_of_mem _ (List.mem_cons_of_mem _ hmem)

theorem le_foldl_max_init (l : List ℚ) (a : ℚ) : a ≤ l.foldl Max.max a := by
  induction l generalizing a with
  | nil => exact le_refl a
  | cons h t ih =>
    exact le_trans (le_max_left a h) (ih (Max.max a h))

theorem le_foldl_max_mem (l : List ℚ) (a x : ℚ) (hx : x ∈ l) :
    x ≤ l.foldl Max.max a := by
  induction l generalizing a with
  | nil => simp at hx
  | cons h t ih =>
    rcases List.mem_cons.mp hx with rfl | hx'
    · exact le_trans (le_max_right a x) (le_foldl_max_init t (Max.max a x))
    · exact ih (Max.max a h) hx'

theorem earliestTick_mem (t : Tick) (ts : List Tick) :
    earliestTick t ts ∈ t :: ts := by
  unfold earliestTick
  refine foldl_pick_mem _ ?_ ts t
  intro a b
  by_cases h : b.timestamp < a.timestamp
  · exact Or.inr (if_pos h)
  · exact Or.inl (if_neg h)

theorem latestTick_mem (t : Tick) (ts : List Tick) :
    latestTick t ts ∈ t :: ts := by
  unfold latestTick
  refine foldl_pick_mem _ ?_ ts t
  intro a b
  by_cases h : a.timestamp ≤ b.timestamp
  · exact Or.inr (if_pos h)
  · exact Or.inl (if_neg h)

/-- Every bar of `resample_ticks` output arises from a non-empty bucket
of the input ticks of its own symbol: the bucket is the sub-list of the
symbol's ticks whose bucket key is `k`, and the bar is `barOfBucket` of
it with interval start `k * tfMs`. -/
theorem resample_mem_structure (ticks : List Tick) (tf : String)
    (sec : ℕ) (bars : List Bar)
    (hsec : TIMEFRAMES.lookup tf = some sec)
    (h : resample_ticks ticks tf = some bars) :
    ∀ b ∈ bars, ∃ (k : ℕ) (t : Tick) (ts : List Tick),
      ((ticks.filter fun u => u.symbol = b.symbol).filter
        fun u => u.timestamp / (sec * 1000) = k) = t :: ts ∧
      b = barOfBucket b.symbol (k * (sec * 1000)) t ts := by
  intro b hb
  unfold resample_ticks at h
  rw [hsec] at h
  have hbars : bars = ((ticks.map Tick.symbol).dedup).flatMap fun s =>
      ((((ticks.filter fun t => t.symbol = s).map
        fun t => t.timestamp / (sec * 1000)).dedup).filterMap fun k =>
        match (ticks.filter fun t => t.symbol = s).filter
            (fun t => t.timestamp / (sec * 1000) = k) with
        | [] => none
        | t :: ts => some (barOfBucket s (k * (sec * 1000)) t ts)) := by
    simpa using h.symm
  rw [hbars] at hb
  rcases List.mem_flatMap.mp hb with ⟨s, _, hbin⟩
  rcases List.mem_filterMap.mp hbin with ⟨k, _, hk⟩
  rcases hfil : (ticks.filter fun t => t.symbol = s).filter
      (fun t => t.timestamp / (sec * 1000) = k) with _ | ⟨t, ts⟩
  · rw [hfil] at hk
    exact absurd hk (by simp)
  · rw [hfil] at hk
    have hbeq : b = barOfBucket s (k * (sec * 1000)) t ts := by
      simpa using hk.symm
    have hsym : b.symbol = s := by rw [hbeq]; rfl
    exact ⟨k, t, ts, by rw [hsym]; exact hfil, by rw [hsym]; exact hbeq⟩

/-- C4: every bar produced by `resample_ticks`, for every input tick
batch and every configured timeframe, satisfies
`low ≤ min(open, close)` and `high ≥ max(open, close)`. -/
theorem c4_bar_ohlc_consistent (ticks : List Tick) (tf : String)
    (sec : ℕ) (bars : List Bar)
    (hsec : TIMEFRAMES.lookup tf = some sec)
    (h : resample_ticks ticks tf = some bars) :
    ∀ b ∈ bars, b.low ≤ Min.min b.open_ b.close ∧
      Max.max b.open_ b.close ≤ b.high := by
  intro b hb
  rcases resample_mem_structure ticks tf sec bars hsec h b hb with
    ⟨k, t, ts, _, hbeq⟩
  have hopen : b.open_ = (earliestTick t ts).price := by rw [hbeq]; rfl
  have hclose : b.close = (latestTick t ts).price := by rw [hbeq]; rfl
  have hlow : b.low = (ts.map Tick.price).foldl Min.min t.price := by
    rw [hbeq]; rfl
  have hhigh : b.high = (ts.map Tick.price).foldl Max.max t.price := by
    rw [hbeq]; rfl
  have hlowle : ∀ u ∈ t :: ts, b.low ≤ u.price := by
    intro u hu
    rcases List.mem_cons.mp hu with rfl | hu'
    · rw [hlow]; exact foldl_min_le_init _ _
    · rw [hlow]
      exact foldl_min_le_mem _ _ _ (List.mem_map_of_mem Tick.price hu')
  have hhighge : ∀ u ∈ t :: ts, u.price ≤ b.high := by
    intro u hu
    rcases List.mem_cons.mp hu with rfl | hu'
    · rw [hhigh]; exact le_foldl_max_init _ _
    · rw [hhigh]
      exact le_foldl_max_mem _ _ _ (List.mem_map_of_mem Tick.price hu')
  constructor
  · exact le_min (hopen ▸ hlowle _ (earliestTick_mem t ts))
      (hclose ▸ hlowle _ (latestTick_mem t ts))
  · exact max_le (hopen ▸ hhighge _ (earliestTick_mem t ts))
      (hclose ▸ hhighge _ (latestTick_mem t ts))

theorem option_eq_some_getD {α : Type} (o : Option α) (d : α)
    (h : o.isSome = true) : o = some (o.getD d) := by
  cases o with
  | none => exact absurd h (by simp)
  | some a => rfl

/-- Witness for C4: the concrete tick batch `sampleTicks` resampled at
`1m`, checked at each of its bars. -/
theorem c4_bar_ohlc_consistent_witness :
    (TIMEFRAMES.lookup "1m" = some 60 ∧
      resample_ticks sampleTicks "1m" = some sampleTicksBars) ∧
    ∀ b ∈ sampleTicksBars, b.low ≤ Min.min b.open_ b.close ∧
      Max.max b.open_ b.close ≤ b.high := by
  refine ⟨⟨by decide, option_eq_some_getD _ _ (by decide)⟩, ?_⟩
  exact c4_bar_ohlc_consistent sampleTicks "1m" 60 sampleTicksBars
    (by decide) (option_eq_some_getD _ _ (by decide))

/-- C5: every bar produced by `resample_ticks`, for every input tick
batch and every configured timeframe, has an interval-start timestamp
that is an exact multiple of the timeframe length in milliseconds, and
that timestamp equals `floor(tick_ts / tfMs) * tfMs` for a tick of its
bucket. -/
theorem c5_bar_timestamp_aligned (ticks : List Tick) (tf : String)
    (sec : ℕ) (bars : List Bar)
    (hsec : TIMEFRAMES.lookup tf = some sec)
    (h : resample_ticks ticks tf = some bars) :
    ∀ b ∈ bars, (sec * 1000) ∣ b.timestamp ∧
      ∃ t ∈ ticks, t.symbol = b.symbol ∧
        b.timestamp = t.timestamp / (sec * 1000) * (sec * 1000) := by
  intro b hb
  rcases resample_mem_structure ticks tf sec bars hsec h b hb with
    ⟨k, t, ts, hfil, hbeq⟩
  have hts : b.timestamp = k * (sec * 1000) := by rw [hbeq]; rfl
  have htmem : t ∈ (ticks.filter fun u => u.symbol = b.symbol).filter
      fun u => u.timestamp / (sec * 1000) = k := by
    rw [hfil]; exact List.mem_cons_self _ _
  have ht2 := List.mem_filter.mp htmem
  have ht3 := List.mem_filter.mp ht2.1
  refine ⟨⟨k, by rw [hts]; ring⟩, t, ht3.1, by simpa using ht3.2, ?_⟩
  rw [hts, of_decide_eq_true ht2.2]

/-- Witness for C5: the concrete tick batch `sampleTicks` resampled at
`1m`, checked at each of its bars. -/
theorem c5_bar_timestamp_aligned_witness :
    (TIMEFRAMES.lookup "1m" = some 60 ∧
      resample_ticks sampleTicks "1m" = some sampleTicksBars) ∧
    ∀ b ∈ sampleTicksBars, (60 * 1000) ∣ b.timestamp ∧
      ∃ t ∈ sampleTicks, t.symbol = b.symbol ∧
        b.timestamp = t.timestamp / (60 * 1000) * (60 * 1000) := by
  refine ⟨⟨by decide, option_eq_some_getD _ _ (by decide)⟩, ?_⟩
  exact c5_bar_timestamp_aligned sampleTicks "1m" 60 sampleTicksBars
    (by decide) (option_eq_some_getD _ _ (by decide))

/-! ## C6: rolling z-score locality and undefinedness -/

theorem rollingWindow_congr (xs ys : List ℚ) (w i : ℕ) (hw : 1 ≤ w)
    (hwi : w - 1 ≤ i) (hxi : i < xs.length) (hyi : i < ys.length)
    (hagree : ∀ j, i + 1 - w ≤ j → j ≤ i → xs.getD j 0 = ys.getD j 0) :
    rollingWindow xs w i = rollingWindow ys w i := by
  have hxlen : (rollingWindow xs w i).length = w := by
    unfold rollingWindow
    rw [List.length_drop, List.length_take]
    omega
  have hylen : (rollingWindow ys w i).length = w := by
    unfold rollingWindow
    rw [List.length_drop, List.length_take]
    omega
  apply List.ext_getElem (by rw [hxlen, hylen])
  intro j h1 h2
  have hjw : j < w := by rwa [hxlen] at h1
  have hx : (rollingWindow xs w i)[j] = xs.getD (i + 1 - w + j) 0 := by
    unfold rollingWindow
    rw [List.getElem_drop, List.getElem_take]
    rw [List.getD_eq_getElem _ _ (by omega)]
  have hy : (rollingWindow ys w i)[j] = ys.getD (i + 1 - w + j) 0 := by
    unfold rollingWindow
    rw [List.getElem_drop, List.getElem_take]
    rw [List.getD_eq_getElem _ _ (by omega)]
  rw [hx, hy]
  exact hagree (i + 1 - w + j) (by omega) (by omega)

/-- C6: for every series and positive window `w`, the rolling z-score is
empty for a series shorter than `w`; otherwise it has one entry per input
index, is undefined (`none`) at every index `i < w - 1`, equals
`(x_i - mean(x_{i-w+1..i})) / std(x_{i-w+1..i})` at every index
`i ≥ w - 1` (with `none` where the rolling standard deviation vanishes,
pandas `NaN`), and therefore depends only on the observations in
`[i-w+1, i]`: two series agreeing on that index range have the same
z-score at `i`. -/
theorem c6_zscore_locality (xs ys : List ℚ) (w i : ℕ) (hw : 1 ≤ w) :
    (xs.length < w → compute_zscore xs w = []) ∧
    (w ≤ xs.length → (compute_zscore xs w).length = xs.length) ∧
    (w ≤ xs.length → i + 1 < w →
      (compute_zscore xs w).getD i none = none) ∧
    (w ≤ xs.length → w - 1 ≤ i → i < xs.length →
      (compute_zscore xs w).getD i none =
        (if sampleVar (rollingWindow xs w i) = 0 then none
          else some ((xs.getD i 0 - listMean (rollingWindow xs w i)) /
            Rat.sqrt (sampleVar (rollingWindow xs w i))))) ∧
    (w ≤ xs.length → w ≤ ys.length → w - 1 ≤ i → i < xs.length →
      i < ys.length →
      (∀ j, i + 1 - w ≤ j → j ≤ i → xs.getD j 0 = ys.getD j 0) →
      (compute_zscore xs w).getD i none =
        (compute_zscore ys w).getD i none) := by
  refine ⟨?_, ?_, ?_, ?_, ?_⟩
  · intro h
    unfold compute_zscore
    rw [if_pos h]
  · exact compute_zscore_length xs w
  · intro h hi
    have hilen : i < xs.length := by omega
    rw [compute_zscore_getD xs w i h hilen]
    unfold zscoreAt
    rw [if_pos hi]
  · intro h hwi hi
    rw [compute_zscore_getD xs w i h hi]
    unfold zscoreAt
    rw [if_neg (by omega)]
  · intro hx hy hwi hxi hyi hagree
    rw [compute_zscore_getD xs w i hx hxi,
      compute_zscore_getD ys w i hy hyi]
    unfold zscoreAt
    rw [rollingWindow_congr xs ys w i hw hwi hxi hyi hagree,
      hagree i (by omega) (le_refl i)]

/-- Witness for C6: window 2 over two three-point series that agree on
the window `[1, 2]` but differ at index 0. -/
theorem c6_zscore_locality_witness :
    ((1 : ℕ) ≤ 2 ∧ (2 : ℕ) ≤ ([(1 : ℚ), 2, 4]).length ∧
      ([(1 : ℚ), 2, 4]).getD 1 0 = ([(7 : ℚ), 2, 4]).getD 1 0 ∧
      ([(1 : ℚ), 2, 4]).getD 0 0 ≠ ([(7 : ℚ), 2, 4]).getD 0 0) ∧
    (compute_zscore [(1 : ℚ), 2, 4] 2).getD 2 none =
      (compute_zscore [(7 : ℚ), 2, 4] 2).getD 2 none := by
  refine ⟨⟨by decide, by decide, by decide, by decide⟩, ?_⟩
  exact (c6_zscore_locality [(1 : ℚ), 2, 4] [(7 : ℚ), 2, 4] 2 2
    (by decide)).2.2.2.2 (by decide) (by decide) (by decide) (by decide)
    (by decide)
    (by intro j h1 h2; interval_cases j <;> rfl)

/-! ## C2: condition evaluation is not confined to the context -/

/-- C2 (code bug): the source evaluates conditions with
`eval(condition, {"__builtins__": {}}, context)`, which blanks only the
global name `__builtins__` and leaves the full expression language —
attribute access included — available.  The condition `(1).__class__`
(and, extended along `__base__`/`__subclasses__`, any loaded class)
reads the interpreter's object model, state outside the supplied context:
under the real object model `pyObjectModel` the rule's evaluation reads
the `int` class object and returns `True` on the *empty* context, while
under an attribute-free interpreter it returns `False` — so evaluation is
not a function of the context's named fields, refuting the claim for this
concrete condition. -/
theorem c2_condition_reads_outside_context :
    pyEval pyObjectModel [] ruleEscape.condition =
      some (PyVal.obj 1) ∧
    pyEval emptyAttrEnv [] ruleEscape.condition = none ∧
    ruleEvaluate pyObjectModel ruleEscape [] = true ∧
    ruleEvaluate emptyAttrEnv ruleEscape [] = false ∧
    ¬ (∀ (e : PyExpr) (context : List (String × PyVal)) (A1 A2 : AttrEnv),
        pyEval A1 context e = pyEval A2 context e) := by
  refine ⟨rfl, rfl, rfl, rfl, ?_⟩
  intro h
  have hcontra := h (.attr (.lit (.num 1)) "__class__") []
    pyObjectModel emptyAttrEnv
  rw [show pyEval pyObjectModel [] (.attr (.lit (.num 1)) "__class__") =
      some (PyVal.obj 1) from rfl,
    show pyEval emptyAttrEnv [] (.attr (.lit (.num 1)) "__class__") =
      none from rfl] at hcontra
  exact Option.noConfusion hcontra

/-! ## C8: disabled and symbol-filtered rules are inert -/

/-- A rule that is disabled, or whose (truthy) symbol filter does not
match the context's symbol field, evaluates to `False` before its
condition is even consulted. -/
theorem ruleEvaluate_inert (A : AttrEnv) (r : AlertRule)
    (context : List (String × PyVal))
    (h : r.enabled = false ∨
      ∃ s, r.symbol = some s ∧ s ≠ "" ∧
        context.lookup "symbol" ≠ some (PyVal.str s)) :
    ruleEvaluate A r context = false := by
  unfold ruleEvaluate
  rcases h with h | ⟨s, hs, hne, hctx⟩
  · simp [h]
  · by_cases henb : r.enabled
    · have h1 : symbolTruthy r.symbol = true := by
        simp [hs, symbolTruthy, hne]
      have h2 : (context.lookup "symbol" ==
          r.symbol.map PyVal.str) = false := by
        rw [hs]
        simpa using hctx
      simp [henb, h1, h2]
    · simp [henb]

/-- The fold inside `check_alerts` preserves the rule-id sequence,
touches neither the history entries nor the callback list on behalf of a
rule that evaluates false, and keeps that rule's object unchanged in the
rule list. -/
theorem check_fold_inert (A : AttrEnv) (now : ℕ)
    (context : List (String × PyVal)) (r : AlertRule)
    (base : List AlertInfo)
    (hr : ruleEvaluate A r context = false) :
    ∀ (rules : List AlertRule)
      (acc : List AlertRule × List AlertInfo ×
        List (String × List (String × PyVal))),
      (∀ u ∈ rules, u = r ∨ u.rule_id ≠ r.rule_id) →
      (∀ info ∈ acc.2.1, info.rule_id = r.rule_id → info ∈ base) →
      (∀ c ∈ acc.2.2, c.1 ≠ r.rule_id) →
      ((rules.foldl (checkOneRule A now context) acc).1.map
          AlertRule.rule_id =
        acc.1.map AlertRule.rule_id ++ rules.map AlertRule.rule_id) ∧
      (∀ info ∈ (rules.foldl (checkOneRule A now context) acc).2.1,
        info.rule_id = r.rule_id → info ∈ base) ∧
      (∀ c ∈ (rules.foldl (checkOneRule A now context) acc).2.2,
        c.1 ≠ r.rule_id) ∧
      (r ∈ rules ∨ r ∈ acc.1 →
        r ∈ (rules.foldl (checkOneRule A now context) acc).1) := by
  intro rules
  induction rules with
  | nil =>
    intro acc _ hacc1 hacc2
    exact ⟨by simp, hacc1, hacc2, fun h => by
      rcases h with h | h
      · simp at h
      · simpa using h⟩
  | cons u us ih =>
    intro acc hrules hacc1 hacc2
    simp only [List.foldl_cons]
    rcases heval : ruleEvaluate A u context with _ | _
    · -- u evaluates false: passed through unchanged
      have hstep : checkOneRule A now context acc u =
          (acc.1 ++ [u], acc.2.1, acc.2.2) := by
        unfold checkOneRule
        rw [heval]
        rfl
      rw [hstep]
      have := ih (acc.1 ++ [u], acc.2.1, acc.2.2)
        (fun v hv => hrules v (List.mem_cons_of_mem u hv)) hacc1 hacc2
      refine ⟨?_, this.2.1, this.2.2.1, ?_⟩
      · rw [this.1]
        simp
      · intro hmem
        refine this.2.2.2 ?_
        rcases hmem with hmem | hmem
        · rcases List.mem_cons.mp hmem with rfl | hmem2
          · exact Or.inr (List.mem_append_right _
              (List.mem_singleton.mpr rfl))
          · exact Or.inl hmem2
        · exact Or.inr (List.mem_append_left _ hmem)
    · -- u evaluates true: it triggers, but it cannot be r
      have hur : u ≠ r := by
        intro hcontra
        rw [hcontra, hr] at heval
        exact Bool.false_ne_true heval
      have hid : u.rule_id ≠ r.rule_id := by
        rcases hrules u (List.mem_cons_self u us) with h | h
        · exact absurd h hur
        · exact h
      have hstep : checkOneRule A now context acc u =
          (acc.1 ++ [triggerRule now u],
            if (acc.2.1 ++ [mkAlertInfo now context u]).length > 100 then
              (acc.2.1 ++ [mkAlertInfo now context u]).tail
            else acc.2.1 ++ [mkAlertInfo now context u],
            acc.2.2 ++ [(u.rule_id, context)]) := by
        unfold checkOneRule
        rw [heval]
        rfl
      rw [hstep]
      have hhist2 : ∀ info ∈
          (if (acc.2.1 ++ [mkAlertInfo now context u]).length > 100 then
            (acc.2.1 ++ [mkAlertInfo now context u]).tail
          else acc.2.1 ++ [mkAlertInfo now context u]),
          info ∈ acc.2.1 ∨ info.rule_id = u.rule_id := by
        intro info hinfo
        have hmem2 : info ∈ acc.2.1 ++ [mkAlertInfo now context u] := by
          by_cases hc :
            (acc.2.1 ++ [mkAlertInfo now context u]).length > 100
          · rw [if_pos hc] at hinfo
            exact List.mem_of_mem_tail hinfo
          · rwa [if_neg hc] at hinfo
        rcases List.mem_append.mp hmem2 with h | h
        · exact Or.inl h
        · exact Or.inr (by rw [List.mem_singleton.mp h]; rfl)
      have ih2 := ih (acc.1 ++ [triggerRule now u],
          (if (acc.2.1 ++ [mkAlertInfo now context u]).length > 100 then
            (acc.2.1 ++ [mkAlertInfo now context u]).tail
          else acc.2.1 ++ [mkAlertInfo now context u]),
          acc.2.2 ++ [(u.rule_id, context)])
        (fun v hv => hrules v (List.mem_cons_of_mem u hv))
        (fun info hinfo hid2 => by
          rcases hhist2 info hinfo with h | h
          · exact hacc1 info h hid2
          · exact absurd (hid2 ▸ h) hid.symm)
        (fun c hc => by
          rcases List.mem_append.mp hc with h | h
          · exact hacc2 c h
          · rw [List.mem_singleton.mp h]
            exact hid)
      refine ⟨?_, ih2.2.1, ih2.2.2.1, ?_⟩
      · rw [ih2.1]
        simp [triggerRule]
      · intro hmem
        refine ih2.2.2.2 ?_
        rcases hmem with hmem | hmem
        · rcases List.mem_cons.mp hmem with rfl | hmem2
          · exact absurd rfl hur.symm
          · exact Or.inl hmem2
        · exact Or.inr (List.mem_append_left _ hmem)

/-- C8: a disabled rule never triggers, and a rule whose symbol filter is
set to a (non-empty) symbol `s` never triggers on a context whose symbol
field differs from `s`: its `evaluate` returns false, and under
`check_alerts` (for every context, evaluation time, object model, and
rule set with unique ids) its `trigger_count`/`last_triggered` are
unchanged (the very rule object is retained), no history entry for it is
appended, no callback for it is invoked, and the rule mapping keeps
exactly the same rule ids — disabled rules remain retained. -/
theorem c8_inert_rules (A : AttrEnv) (now : ℕ) (mgr : AlertManager)
    (context : List (String × PyVal)) (r : AlertRule)
    (hnodup : (mgr.rules.map AlertRule.rule_id).Nodup)
    (hmem : r ∈ mgr.rules)
    (hinert : r.enabled = false ∨
      ∃ s, r.symbol = some s ∧ s ≠ "" ∧
        context.lookup "symbol" ≠ some (PyVal.str s)) :
    ruleEvaluate A r context = false ∧
    (check_alerts A now mgr context).1.rules.map AlertRule.rule_id =
      mgr.rules.map AlertRule.rule_id ∧
    r ∈ (check_alerts A now mgr context).1.rules ∧
    (∀ info ∈ (check_alerts A now mgr context).1.active_alerts,
      info.rule_id = r.rule_id → info ∈ mgr.active_alerts) ∧
    (∀ c ∈ (check_alerts A now mgr context).2, c.1 ≠ r.rule_id) := by
  have hr := ruleEvaluate_inert A r context hinert
  have hrules : ∀ u ∈ mgr.rules, u = r ∨ u.rule_id ≠ r.rule_id := by
    intro u hu
    by_cases hid : u.rule_id = r.rule_id
    · exact Or.inl (List.inj_on_of_nodup_map hnodup hu hmem hid)
    · exact Or.inr hid
  have key := check_fold_inert A now context r mgr.active_alerts hr
    mgr.rules ([], mgr.active_alerts, []) hrules (fun info h _ => h)
    (fun c hc => absurd hc (List.not_mem_nil c))
  refine ⟨hr, ?_, ?_, ?_, ?_⟩
  · have := key.1
    simpa [check_alerts] using this
  · have := key.2.2.2 (Or.inl hmem)
    simpa [check_alerts] using this
  · have := key.2.1
    simpa [check_alerts] using this
  · have := key.2.2.1
    simpa [check_alerts] using this

/-- Witness for C8: the disabled rule `r1` and the `ethusdt`-scoped rule
`r2` are both inert under a `btcusdt` context, while the manager also
holds a rule that does trigger. -/
theorem c8_inert_rules_witness :
    ((sampleMgr.rules.map AlertRule.rule_id).Nodup ∧
      ruleDisabled ∈ sampleMgr.rules ∧ ruleEth ∈ sampleMgr.rules ∧
      ruleDisabled.enabled = false ∧
      ruleEth.symbol = some "ethusdt" ∧
      sampleCtx.lookup "symbol" ≠ some (PyVal.str "ethusdt")) ∧
    ruleEvaluate emptyAttrEnv ruleDisabled sampleCtx = false ∧
    ruleEvaluate emptyAttrEnv ruleEth sampleCtx = false ∧
    (∀ c ∈ (check_alerts emptyAttrEnv 17 sampleMgr sampleCtx).2,
      c.1 ≠ ruleDisabled.rule_id) ∧
    (check_alerts emptyAttrEnv 17 sampleMgr sampleCtx).1.rules.map
      AlertRule.rule_id = sampleMgr.rules.map AlertRule.rule_id := by
  refine ⟨⟨by decide, by decide, by decide, by decide, by decide,
    by decide⟩, ?_, ?_, ?_, ?_⟩
  · exact (c8_inert_rules emptyAttrEnv 17 sampleMgr sampleCtx
      ruleDisabled (by decide) (by decide) (Or.inl (by decide))).1
  · exact (c8_inert_rules emptyAttrEnv 17 sampleMgr sampleCtx
      ruleEth (by decide) (by decide)
      (Or.inr ⟨"ethusdt", by decide, by decide, by decide⟩)).1
  · exact (c8_inert_rules emptyAttrEnv 17 sampleMgr sampleCtx
      ruleDisabled (by decide) (by decide) (Or.inl (by decide))).2.2.2.2
  · exact (c8_inert_rules emptyAttrEnv 17 sampleMgr sampleCtx
      ruleDisabled (by decide) (by decide) (Or.inl (by decide))).2.1

end QuantDash
